import Mathlib

/-!
Shallow embedding of the FocusFlow backend (Projects → Goals → Tasks with
soft deletion and a bulk sync endpoint).

Conventions of the embedding:
* Entity ids are `Nat`; the store assigns fresh ids from `DB.nextId`
  (modelling Prisma's cuid generation: opaque, fresh, decidably equal).
* Timestamps are `Nat` (milliseconds).  Every place the source calls
  `new Date()` is modelled by an explicit time parameter, so distinct
  calls may receive distinct (or equal) values, exactly as a real clock.
* Prisma's implicit `@updatedAt` bump is modelled: every update writes
  `updatedAt`; creates set `createdAt = updatedAt = now`.
* Prisma `orderBy` is modelled by `List.insertionSort` over the total
  preorder corresponding to the orderBy key list (ties are resolved
  deterministically but arbitrarily, as in SQL).
* A `prisma.$transaction` block is one pure state transition, so its
  intermediate states do not exist in the model (atomic visibility).
* Fallible handlers return `Except ApiError`.
-/

namespace FocusFlow

/-- Urgency enum; stored as the tokens LAAG/MIDDEN/HOOG in a TEXT column
(`tasks.urgency` in the migration). -/
inductive Urgency
  | LAAG
  | MIDDEN
  | HOOG
deriving DecidableEq, Repr

/-- Token string stored in the database for an urgency value. -/
def Urgency.token : Urgency → String
  | .LAAG => "LAAG"
  | .MIDDEN => "MIDDEN"
  | .HOOG => "HOOG"

/-- Rank of the stored token in the TEXT-column collation used by
`orderBy { urgency: 'desc' }`: alphabetically "HOOG" < "LAAG" < "MIDDEN". -/
def Urgency.textRank : Urgency → Nat
  | .HOOG => 0
  | .LAAG => 1
  | .MIDDEN => 2

/-- Project row (`projects` table). -/
structure Project where
  id : Nat
  name : String
  createdAt : Nat
  updatedAt : Nat
  deletedAt : Option Nat
deriving DecidableEq, Repr

/-- Goal row (`goals` table). -/
structure Goal where
  id : Nat
  projectId : Nat
  name : String
  createdAt : Nat
  updatedAt : Nat
  deletedAt : Option Nat
deriving DecidableEq, Repr

/-- Task row (`tasks` table). -/
structure Task where
  id : Nat
  goalId : Nat
  name : String
  completed : Bool
  urgency : Urgency
  todaysFocus : Bool
  createdAt : Nat
  updatedAt : Nat
  completedAt : Option Nat
  deletedAt : Option Nat
deriving DecidableEq, Repr

/-- The durable store: the three tables plus the id generator. -/
structure DB where
  projects : List Project
  goals : List Goal
  tasks : List Task
  nextId : Nat
deriving DecidableEq, Repr

/-! ### Orderings (Prisma `orderBy` translations) -/

/-- Translation of `orderBy: [{todaysFocus: 'desc'}, {completed: 'asc'},
{createdAt: 'desc'}]` (task lists) as a total preorder. -/
def taskListLe (a b : Task) : Prop :=
  (!a.todaysFocus).toNat < (!b.todaysFocus).toNat ∨
    ((!a.todaysFocus).toNat = (!b.todaysFocus).toNat ∧
      (a.completed.toNat < b.completed.toNat ∨
        (a.completed.toNat = b.completed.toNat ∧ b.createdAt ≤ a.createdAt)))

/-- Translation of `orderBy: [{completed: 'asc'}, {urgency: 'desc'},
{createdAt: 'desc'}]` (the today's-focus listing); urgency is a TEXT
column so 'desc' is descending token order, i.e. ascending `textRank`
reversed. -/
def todaysOrderLe (a b : Task) : Prop :=
  a.completed.toNat < b.completed.toNat ∨
    (a.completed.toNat = b.completed.toNat ∧
      (b.urgency.textRank < a.urgency.textRank ∨
        (b.urgency.textRank = a.urgency.textRank ∧ b.createdAt ≤ a.createdAt)))

/-- Translation of `orderBy: { createdAt: 'asc' }` for projects. -/
def projCreatedLe (a b : Project) : Prop :=
  a.createdAt ≤ b.createdAt

/-- Translation of `orderBy: { createdAt: 'asc' }` for goals. -/
def goalCreatedLe (a b : Goal) : Prop :=
  a.createdAt ≤ b.createdAt

instance : DecidableRel taskListLe := fun a b => by
  unfold taskListLe
  exact inferInstance

instance : DecidableRel todaysOrderLe := fun a b => by
  unfold todaysOrderLe
  exact inferInstance

instance : DecidableRel projCreatedLe := fun a b => by
  unfold projCreatedLe
  exact inferInstance

instance : DecidableRel goalCreatedLe := fun a b => by
  unfold goalCreatedLe
  exact inferInstance

instance : IsTotal Task taskListLe := ⟨by
  intro a b
  unfold taskListLe
  omega⟩

instance : IsTrans Task taskListLe := ⟨by
  intro a b c
  unfold taskListLe
  omega⟩

instance : IsTotal Task todaysOrderLe := ⟨by
  intro a b
  unfold todaysOrderLe
  omega⟩

instance : IsTrans Task todaysOrderLe := ⟨by
  intro a b c
  unfold todaysOrderLe
  omega⟩

instance : IsTotal Project projCreatedLe := ⟨by
  intro a b
  unfold projCreatedLe
  omega⟩

instance : IsTrans Project projCreatedLe := ⟨by
  intro a b c
  unfold projCreatedLe
  omega⟩

instance : IsTotal Goal goalCreatedLe := ⟨by
  intro a b
  unfold goalCreatedLe
  omega⟩

instance : IsTrans Goal goalCreatedLe := ⟨by
  intro a b c
  unfold goalCreatedLe
  omega⟩

/-! ### Store reads -/

/-- Translation of `prisma.project.findUnique({ where: { id } })` as used by
the sync reconciler: note there is NO `deletedAt` filter. -/
def DB.findProjectAny (db : DB) (i : Nat) : Option Project :=
  db.projects.find? (fun p => p.id == i)

/-- Non-deleted goals of a project (`goals: { where: { deletedAt: null } }`). -/
def DB.goalsOfProject (db : DB) (pid : Nat) : List Goal :=
  db.goals.filter (fun g => g.projectId == pid && g.deletedAt.isNone)

/-- Non-deleted tasks of a goal (`tasks: { where: { deletedAt: null } }`). -/
def DB.tasksOfGoal (db : DB) (gid : Nat) : List Task :=
  db.tasks.filter (fun t => t.goalId == gid && t.deletedAt.isNone)

/-- Snapshot entry for one goal as fetched in the reconciler's
project `include`. -/
structure GoalSnap where
  goal : Goal
  tasks : List Task
deriving DecidableEq, Repr

/-- Translation of the reconciler's project lookup together with its
`include` of non-deleted goals and their non-deleted tasks; the project
itself is looked up without a `deletedAt` filter (`findUnique`). -/
def DB.projectSnapshot (db : DB) (pid : Nat) : Option (Project × List GoalSnap) :=
  match db.findProjectAny pid with
  | none => none
  | some p => some (p, (db.goalsOfProject pid).map (fun g => ⟨g, db.tasksOfGoal g.id⟩))

/-- Translation of the initial `findMany` in `syncData` (lines 20–39):
non-deleted projects, additionally filtered by `updatedAt > lastSyncedAt`
when a watermark is supplied.  Its result is never used afterwards. -/
def DB.serverSince (db : DB) (lastSyncedAt : Option Nat) : List Project :=
  db.projects.filter (fun p =>
    p.deletedAt.isNone &&
      (match lastSyncedAt with
       | none => true
       | some w => w < p.updatedAt))

/-- The full non-deleted hierarchy, ordered as in the final `findMany` of
`syncData`: projects and goals by `createdAt` ascending, tasks by the
task-list order. -/
def DB.serverState (db : DB) : List (Project × List (Goal × List Task)) :=
  (List.insertionSort projCreatedLe (db.projects.filter (fun p => p.deletedAt.isNone))).map
    (fun p =>
      (p, (List.insertionSort goalCreatedLe (db.goalsOfProject p.id)).map
        (fun g => (g, List.insertionSort taskListLe (db.tasksOfGoal g.id)))))

/-! ### Client snapshot types (the validated `SyncSchema` request body) -/

/-- Client-side task snapshot; `completedAt` is the parsed datetime or
null/absent (`task.completedAt ? new Date(task.completedAt) : null`). -/
structure ClientTask where
  id : Option Nat
  name : String
  completed : Bool
  urgency : Urgency
  todaysFocus : Bool
  completedAt : Option Nat
deriving DecidableEq, Repr

/-- Client-side goal snapshot. -/
structure ClientGoal where
  id : Option Nat
  name : String
  tasks : List ClientTask
deriving DecidableEq, Repr

/-- Client-side project snapshot. -/
structure ClientProject where
  id : Option Nat
  name : String
  goals : List ClientGoal
deriving DecidableEq, Repr

/-- Validated body of `POST /api/sync`. -/
structure SyncReq where
  projects : List ClientProject
  lastSyncedAt : Option Nat
deriving DecidableEq, Repr

/-- Per-kind counters of `syncResults.created` / `syncResults.updated`. -/
structure Counts where
  projects : Nat
  goals : Nat
  tasks : Nat
deriving DecidableEq, Repr

/-- The `syncResults` accumulator (the `conflicts` array stays empty in the
source and is omitted). -/
structure SyncResults where
  created : Counts
  updated : Counts
deriving DecidableEq, Repr

/-- Initial value of `syncResults`. -/
def SyncResults.init : SyncResults :=
  ⟨⟨0, 0, 0⟩, ⟨0, 0, 0⟩⟩

/-- Number of tasks in one client goal. -/
def ClientGoal.taskCount (cg : ClientGoal) : Nat :=
  cg.tasks.length

/-- Total number of tasks nested in one client project
(`clientProject.goals.reduce((sum, g) => sum + g.tasks.length, 0)`). -/
def ClientProject.taskTotal (cp : ClientProject) : Nat :=
  cp.goals.foldl (fun sum g => sum + g.tasks.length) 0

/-! ### Store writes used by the reconciler -/

/-- Creation of one task row from client data under goal `gid`
(the `tasks: { create: ... }` items and `prisma.task.create` in `syncData`);
note `completed` and `completedAt` are copied verbatim from the client. -/
def DB.createTaskFromClient (db : DB) (now gid : Nat) (ct : ClientTask) : DB :=
  { db with
    tasks := db.tasks ++ [{
      id := db.nextId
      goalId := gid
      name := ct.name
      completed := ct.completed
      urgency := ct.urgency
      todaysFocus := ct.todaysFocus
      createdAt := now
      updatedAt := now
      completedAt := ct.completedAt
      deletedAt := none }]
    nextId := db.nextId + 1 }

/-- Creation of one goal row with its nested task creates under project
`pid` (`prisma.goal.create` with `tasks: { create: ... }` in `syncData`). -/
def DB.createGoalWithTasks (db : DB) (now pid : Nat) (cg : ClientGoal) : DB :=
  let gid := db.nextId
  let db1 : DB :=
    { db with
      goals := db.goals ++ [{
        id := gid
        projectId := pid
        name := cg.name
        createdAt := now
        updatedAt := now
        deletedAt := none }]
      nextId := db.nextId + 1 }
  cg.tasks.foldl (fun d ct => d.createTaskFromClient now gid ct) db1

/-- Creation of a whole new project subtree (`prisma.project.create` with
nested goal and task creates, `syncData` lines 51–69); nested client ids
are never read. -/
def DB.createProjectSubtree (db : DB) (now : Nat) (cp : ClientProject) : DB :=
  let pid := db.nextId
  let db1 : DB :=
    { db with
      projects := db.projects ++ [{
        id := pid
        name := cp.name
        createdAt := now
        updatedAt := now
        deletedAt := none }]
      nextId := db.nextId + 1 }
  cp.goals.foldl (fun d cg => d.createGoalWithTasks now pid cg) db1

/-- Translation of `prisma.project.update({ where: { id }, data: { name } })`. -/
def DB.updateProjectName (db : DB) (now i : Nat) (n : String) : DB :=
  { db with
    projects := db.projects.map (fun p =>
      if p.id == i then { p with name := n, updatedAt := now } else p) }

/-- Translation of `prisma.goal.update({ where: { id }, data: { name } })`. -/
def DB.updateGoalName (db : DB) (now i : Nat) (n : String) : DB :=
  { db with
    goals := db.goals.map (fun g =>
      if g.id == i then { g with name := n, updatedAt := now } else g) }

/-- Translation of the reconciler's last-write-wins task update
(`prisma.task.update`, `syncData` lines 155–164): name, completed, urgency,
todaysFocus and completedAt are overwritten with the client's values. -/
def DB.updateTaskFromClient (db : DB) (now i : Nat) (ct : ClientTask) : DB :=
  { db with
    tasks := db.tasks.map (fun t =>
      if t.id == i then
        { t with
          name := ct.name
          completed := ct.completed
          urgency := ct.urgency
          todaysFocus := ct.todaysFocus
          completedAt := ct.completedAt
          updatedAt := now }
      else t) }

/-! ### The sync reconciler -/

/-- Processing of one client task inside a matched goal (`syncData` lines
135–168): no id → create under `gid`; id matched in the goal's task
snapshot → unconditional overwrite; id not matched → silent no-op. -/
def processClientTask (now gid : Nat) (snapTasks : List Task)
    (acc : DB × SyncResults) (ct : ClientTask) : DB × SyncResults :=
  match ct.id with
  | none =>
    (acc.1.createTaskFromClient now gid ct,
     { acc.2 with created := { acc.2.created with tasks := acc.2.created.tasks + 1 } })
  | some tid =>
    match snapTasks.find? (fun t => t.id == tid) with
    | none => acc
    | some _ =>
      (acc.1.updateTaskFromClient now tid ct,
       { acc.2 with updated := { acc.2.updated with tasks := acc.2.updated.tasks + 1 } })

/-- Processing of one client goal inside a matched project (`syncData`
lines 100–171): no id → create goal with nested tasks; id matched in the
project snapshot → conditional name update, then per-task processing; id
not matched → silent no-op. -/
def processClientGoal (now pid : Nat) (snapGoals : List GoalSnap)
    (acc : DB × SyncResults) (cg : ClientGoal) : DB × SyncResults :=
  match cg.id with
  | none =>
    (acc.1.createGoalWithTasks now pid cg,
     { acc.2 with created := { acc.2.created with
         goals := acc.2.created.goals + 1
         tasks := acc.2.created.tasks + cg.tasks.length } })
  | some gid =>
    match snapGoals.find? (fun s => s.goal.id == gid) with
    | none => acc
    | some sg =>
      let acc1 : DB × SyncResults :=
        if sg.goal.name ≠ cg.name then
          (acc.1.updateGoalName now gid cg.name,
           { acc.2 with updated := { acc.2.updated with goals := acc.2.updated.goals + 1 } })
        else acc
      cg.tasks.foldl (processClientTask now gid sg.tasks) acc1

/-- Processing of one client project (`syncData` lines 48–174): no id →
create the whole subtree and count it; id present → look the project up
WITHOUT a deletedAt filter; not found → silent no-op; found → conditional
name update, then per-goal processing against the snapshot. -/
def processClientProject (now : Nat) (acc : DB × SyncResults)
    (cp : ClientProject) : DB × SyncResults :=
  match cp.id with
  | none =>
    (acc.1.createProjectSubtree now cp,
     { acc.2 with created := { acc.2.created with
         projects := acc.2.created.projects + 1
         goals := acc.2.created.goals + cp.goals.length
         tasks := acc.2.created.tasks + cp.taskTotal } })
  | some pid =>
    match acc.1.projectSnapshot pid with
    | none => acc
    | some (sp, snapGoals) =>
      let acc1 : DB × SyncResults :=
        if sp.name ≠ cp.name then
          (acc.1.updateProjectName now pid cp.name,
           { acc.2 with updated := { acc.2.updated with projects := acc.2.updated.projects + 1 } })
        else acc
      cp.goals.foldl (processClientGoal now pid snapGoals) acc1

/-- Translation of `syncData` (`POST /api/sync`): the initial (unused)
watermark-filtered fetch, the per-project reconciliation loop, and the
final full snapshot.  `now` models the server clock during this request. -/
def syncData (now : Nat) (db : DB) (req : SyncReq) :
    DB × SyncResults × List (Project × List (Goal × List Task)) :=
  let _serverProjects := db.serverSince req.lastSyncedAt
  let out := req.projects.foldl (processClientProject now) (db, SyncResults.init)
  (out.1, out.2, out.1.serverState)

/-! ### CRUD façade handlers -/

/-- Error taxonomy surfaced by the CRUD handlers. -/
inductive ApiError
  | notFound (resource : String) (id : Nat)
deriving DecidableEq, Repr

/-- Translation of `POST /api/goals` (`createGoal`): verifies the project
exists and is non-deleted, then creates the goal row. -/
def createGoal (db : DB) (now pid : Nat) (name : String) :
    Except ApiError (DB × Goal) :=
  match db.projects.find? (fun p => p.id == pid && p.deletedAt.isNone) with
  | none => .error (.notFound "Project" pid)
  | some _ =>
    let g : Goal :=
      { id := db.nextId, projectId := pid, name := name
        createdAt := now, updatedAt := now, deletedAt := none }
    .ok ({ db with goals := db.goals ++ [g], nextId := db.nextId + 1 }, g)

/-- Translation of `POST /api/tasks` (`createTask`): verifies the goal
exists and is non-deleted, then creates the task with defaults
`urgency ?? 'MIDDEN'`, `todaysFocus ?? false`, `completed ?? false`;
`completedAt` is never set on create. -/
def createTask (db : DB) (now gid : Nat) (name : String)
    (urgency : Option Urgency) (todaysFocus completed : Option Bool) :
    Except ApiError (DB × Task) :=
  match db.goals.find? (fun g => g.id == gid && g.deletedAt.isNone) with
  | none => .error (.notFound "Goal" gid)
  | some _ =>
    let t : Task :=
      { id := db.nextId, goalId := gid, name := name
        completed := completed.getD false
        urgency := urgency.getD .MIDDEN
        todaysFocus := todaysFocus.getD false
        createdAt := now, updatedAt := now
        completedAt := none, deletedAt := none }
    .ok ({ db with tasks := db.tasks ++ [t], nextId := db.nextId + 1 }, t)

/-- Validated body of `PUT /api/tasks/:id` (`UpdateTaskSchema`): every
field optional; there is no `completedAt` field. -/
structure UpdateTaskData where
  name : Option String
  urgency : Option Urgency
  todaysFocus : Option Bool
  completed : Option Bool
  goalId : Option Nat
deriving DecidableEq, Repr

/-- Translation of `PUT /api/tasks/:id` (`updateTask`): NotFound when the
task is absent or soft-deleted, NotFound when a supplied `goalId` does not
reference a non-deleted goal; `completedAt` is set to now on a
false→true transition of `completed`, cleared on true→false, and left
untouched otherwise (modelled as an optional field write, matching the
object-spread in the source). -/
def updateTask (db : DB) (now i : Nat) (u : UpdateTaskData) :
    Except ApiError DB :=
  match db.tasks.find? (fun t => t.id == i && t.deletedAt.isNone) with
  | none => .error (.notFound "Task" i)
  | some existing =>
    let goalOk : Bool :=
      match u.goalId with
      | none => true
      | some gid => (db.goals.find? (fun g => g.id == gid && g.deletedAt.isNone)).isSome
    if goalOk then
      let completedAtChange : Option (Option Nat) :=
        match u.completed with
        | none => none
        | some c =>
          if c && !existing.completed then some (some now)
          else if !c && existing.completed then some none
          else none
      .ok { db with
        tasks := db.tasks.map (fun t =>
          if t.id == i then
            { t with
              name := u.name.getD t.name
              urgency := u.urgency.getD t.urgency
              todaysFocus := u.todaysFocus.getD t.todaysFocus
              completed := u.completed.getD t.completed
              completedAt := completedAtChange.getD t.completedAt
              updatedAt := now }
          else t) }
    else .error (.notFound "Goal" (u.goalId.getD 0))

/-- Translation of `DELETE /api/projects/:id` (`deleteProject`): NotFound
when absent or already soft-deleted; otherwise one transaction soft-deletes
the non-deleted tasks whose goal belongs to the project (timestamp `t1`),
the non-deleted goals of the project (timestamp `t2`), and the project row
itself (timestamp `t3`) — the three `new Date()` calls of the source. -/
def deleteProject (db : DB) (i t1 t2 t3 : Nat) : Except ApiError DB :=
  match db.projects.find? (fun p => p.id == i && p.deletedAt.isNone) with
  | none => .error (.notFound "Project" i)
  | some _ =>
    let db1 : DB :=
      { db with tasks := db.tasks.map (fun t =>
          if db.goals.any (fun g => g.id == t.goalId && g.projectId == i) && t.deletedAt.isNone
          then { t with deletedAt := some t1, updatedAt := t1 }
          else t) }
    let db2 : DB :=
      { db1 with goals := db1.goals.map (fun g =>
          if g.projectId == i && g.deletedAt.isNone
          then { g with deletedAt := some t2, updatedAt := t2 }
          else g) }
    .ok { db2 with projects := db2.projects.map (fun p =>
        if p.id == i then { p with deletedAt := some t3, updatedAt := t3 } else p) }

/-- Translation of `DELETE /api/goals/:id` (`deleteGoal`): NotFound when
absent or already soft-deleted; otherwise one transaction soft-deletes the
goal's non-deleted tasks (timestamp `t1`) and the goal row (timestamp
`t2`) — the two `new Date()` calls of the source. -/
def deleteGoal (db : DB) (i t1 t2 : Nat) : Except ApiError DB :=
  match db.goals.find? (fun g => g.id == i && g.deletedAt.isNone) with
  | none => .error (.notFound "Goal" i)
  | some _ =>
    let db1 : DB :=
      { db with tasks := db.tasks.map (fun t =>
          if t.goalId == i && t.deletedAt.isNone
          then { t with deletedAt := some t1, updatedAt := t1 }
          else t) }
    .ok { db1 with goals := db1.goals.map (fun g =>
        if g.id == i then { g with deletedAt := some t2, updatedAt := t2 } else g) }

/-- Validated query of `GET /api/tasks` (`TaskQuerySchema`). -/
structure TaskQuery where
  goalId : Option Nat
  urgency : Option Urgency
  todaysFocus : Option Bool
  completed : Option Bool
deriving DecidableEq, Repr

/-- Row filter of `GET /api/tasks`: non-deleted plus the optional query
filters. -/
def taskMatchesQuery (q : TaskQuery) (t : Task) : Bool :=
  t.deletedAt.isNone
    && (match q.goalId with | none => true | some g => t.goalId == g)
    && (match q.urgency with | none => true | some u => t.urgency == u)
    && (match q.todaysFocus with | none => true | some b => t.todaysFocus == b)
    && (match q.completed with | none => true | some b => t.completed == b)

/-- Translation of `GET /api/tasks` (`getAllTasks`): filtered rows ordered
by `[todaysFocus desc, completed asc, createdAt desc]`. -/
def getAllTasks (db : DB) (q : TaskQuery) : List Task :=
  List.insertionSort taskListLe (db.tasks.filter (taskMatchesQuery q))

/-- Translation of `GET /api/tasks/today` (`getTodaysTasks`): non-deleted
rows with `todaysFocus = true`, ordered by
`[completed asc, urgency desc, createdAt desc]`. -/
def getTodaysTasks (db : DB) : List Task :=
  List.insertionSort todaysOrderLe
    (db.tasks.filter (fun t => t.deletedAt.isNone && t.todaysFocus))

/-! ### Failure-point semantics of the reconciliation pass

The source performs each top-level Prisma call of `syncData` as its own
await with no enclosing `$transaction`, so each write commits
individually.  `Fuel`-indexed variants below run the same pass but stop
writing once `fuel` writes have been performed: the state they return is
exactly what remains durably visible when the `(fuel+1)`-st write fails
and `asyncHandler` turns the rejection into an error response. -/

/-- One individually-committed write: performs `w` if fuel remains. -/
def tryWrite (w : DB → DB) (s : DB × Nat) : DB × Nat :=
  match s.2 with
  | 0 => s
  | f + 1 => (w s.1, f)

/-- Fuel-indexed variant of `processClientTask` (state only). -/
def processClientTaskFuel (now gid : Nat) (snapTasks : List Task)
    (s : DB × Nat) (ct : ClientTask) : DB × Nat :=
  match ct.id with
  | none => tryWrite (fun d => d.createTaskFromClient now gid ct) s
  | some tid =>
    match snapTasks.find? (fun t => t.id == tid) with
    | none => s
    | some _ => tryWrite (fun d => d.updateTaskFromClient now tid ct) s

/-- Fuel-indexed variant of `processClientGoal` (state only). -/
def processClientGoalFuel (now pid : Nat) (snapGoals : List GoalSnap)
    (s : DB × Nat) (cg : ClientGoal) : DB × Nat :=
  match cg.id with
  | none => tryWrite (fun d => d.createGoalWithTasks now pid cg) s
  | some gid =>
    match snapGoals.find? (fun sn => sn.goal.id == gid) with
    | none => s
    | some sg =>
      let s1 : DB × Nat :=
        if sg.goal.name ≠ cg.name then tryWrite (fun d => d.updateGoalName now gid cg.name) s
        else s
      cg.tasks.foldl (processClientTaskFuel now gid sg.tasks) s1

/-- Fuel-indexed variant of `processClientProject` (state only). -/
def processClientProjectFuel (now : Nat) (s : DB × Nat)
    (cp : ClientProject) : DB × Nat :=
  match cp.id with
  | none => tryWrite (fun d => d.createProjectSubtree now cp) s
  | some pid =>
    match s.1.projectSnapshot pid with
    | none => s
    | some (sp, snapGoals) =>
      let s1 : DB × Nat :=
        if sp.name ≠ cp.name then tryWrite (fun d => d.updateProjectName now pid cp.name) s
        else s
      cp.goals.foldl (processClientGoalFuel now pid snapGoals) s1

/-- State visible after the reconciliation pass has performed at most
`fuel` individually-committed writes (the store left behind when the next
write fails). -/
def syncDataUpTo (now : Nat) (db : DB) (req : SyncReq) (fuel : Nat) : DB × Nat :=
  req.projects.foldl (processClientProjectFuel now) (db, fuel)

/-! ### Derived notions used in statements -/

/-- The client-writable content of a task row (everything the reconciler's
last-write-wins update overwrites). -/
def Task.syncContent (t : Task) : String × Bool × Urgency × Bool × Option Nat :=
  (t.name, t.completed, t.urgency, t.todaysFocus, t.completedAt)

/-- The corresponding content of a client task snapshot. -/
def ClientTask.syncContent (ct : ClientTask) : String × Bool × Urgency × Bool × Option Nat :=
  (ct.name, ct.completed, ct.urgency, ct.todaysFocus, ct.completedAt)

/-- Erasure of the automatically-bumped `updatedAt` field of a task row
(used to compare stores and snapshots up to update timestamps). -/
def Task.stripUpdated (t : Task) : Task :=
  { t with updatedAt := 0 }

/-- Erasure of `updatedAt` throughout a returned hierarchy snapshot. -/
def stripServerState (s : List (Project × List (Goal × List Task))) :
    List (Project × List (Goal × List Task)) :=
  s.map (fun pe => (pe.1, pe.2.map (fun ge => (ge.1, ge.2.map Task.stripUpdated))))

/-- Subtree-id erasure: drops the ids carried by the nested goals and
tasks of a client project. -/
def ClientProject.stripSubtreeIds (cp : ClientProject) : ClientProject :=
  { cp with goals := cp.goals.map (fun cg =>
      { cg with id := none, tasks := cg.tasks.map (fun ct => { ct with id := none }) }) }

/-- Spec §3 completion-timestamp invariant: `completedAt` is non-null iff
`completed` is true, for every task row. -/
def completionInvariant (db : DB) : Prop :=
  ∀ t ∈ db.tasks, t.completedAt.isSome = t.completed

/-- Well-formed store: primary keys are unique per table. -/
def DB.wf (db : DB) : Prop :=
  (db.projects.map Project.id).Nodup ∧
    (db.goals.map Goal.id).Nodup ∧
    (db.tasks.map Task.id).Nodup

/-- A client task is id-matched: it carries an id that denotes a
non-deleted server task of goal `gid`. -/
def MatchedTask (db : DB) (gid : Nat) (ct : ClientTask) : Prop :=
  ∃ tid, ct.id = some tid ∧
    ∃ t ∈ db.tasks, t.id = tid ∧ t.goalId = gid ∧ t.deletedAt = none

/-- A client goal is id-matched under project `pid`, and so is its whole
task list. -/
def MatchedGoal (db : DB) (pid : Nat) (cg : ClientGoal) : Prop :=
  ∃ gid, cg.id = some gid ∧
    (∃ g ∈ db.goals, g.id = gid ∧ g.projectId = pid ∧ g.deletedAt = none) ∧
    ∀ ct ∈ cg.tasks, MatchedTask db gid ct

/-- A client project is id-matched, and so is its whole subtree. -/
def MatchedProject (db : DB) (cp : ClientProject) : Prop :=
  ∃ pid, cp.id = some pid ∧
    (∃ p ∈ db.projects, p.id = pid) ∧
    ∀ cg ∈ cp.goals, MatchedGoal db pid cg

/-- Modulo timestamps, the store already carries the client's values for
every matched entity of the snapshot (names of project and goals, the
full writable content of tasks). -/
def AgreesTask (db : DB) (ct : ClientTask) : Prop :=
  ∀ tid, ct.id = some tid →
    ∀ t ∈ db.tasks, t.id = tid → t.syncContent = ct.syncContent

/-- Name/content agreement for a matched client goal. -/
def AgreesGoal (db : DB) (cg : ClientGoal) : Prop :=
  (∀ gid, cg.id = some gid → ∀ g ∈ db.goals, g.id = gid → g.name = cg.name) ∧
    ∀ ct ∈ cg.tasks, AgreesTask db ct

/-- Name/content agreement for a matched client project. -/
def AgreesProject (db : DB) (cp : ClientProject) : Prop :=
  (∀ pid, cp.id = some pid → ∀ p ∈ db.projects, p.id = pid → p.name = cp.name) ∧
    ∀ cg ∈ cp.goals, AgreesGoal db cg

/-- Ids carried by the client goals of a request (with multiplicity). -/
def SyncReq.goalIds (req : SyncReq) : List Nat :=
  req.projects.flatMap (fun cp => cp.goals.filterMap (fun cg => cg.id))

/-- Ids carried by the client tasks of a request (with multiplicity). -/
def SyncReq.taskIds (req : SyncReq) : List Nat :=
  req.projects.flatMap (fun cp => cp.goals.flatMap (fun cg => cg.tasks.filterMap (fun ct => ct.id)))

/-- Ids carried by the client projects of a request (with multiplicity). -/
def SyncReq.projectIds (req : SyncReq) : List Nat :=
  req.projects.filterMap (fun cp => cp.id)

/-- Total number of tasks mentioned in the request. -/
def SyncReq.taskTotal (req : SyncReq) : Nat :=
  (req.projects.map (fun cp => cp.goals.foldl (fun sum g => sum + g.tasks.length) 0)).sum

/-! ### Spec-side order relations (worded as in the spec, §3) -/

/-- Reading of "todaysFocus descending, then completed ascending, then
createdAt descending" as a pairwise relation between consecutive rows. -/
def specAllTasksOrder (a b : Task) : Prop :=
  (a.todaysFocus = true ∧ b.todaysFocus = false) ∨
    (a.todaysFocus = b.todaysFocus ∧
      ((a.completed = false ∧ b.completed = true) ∨
        (a.completed = b.completed ∧ b.createdAt ≤ a.createdAt)))

/-- Reading of "completed ascending, urgency descending, createdAt
descending", urgency descending taken on the stored token (TEXT column
collation). -/
def specTodaysOrder (a b : Task) : Prop :=
  (a.completed = false ∧ b.completed = true) ∨
    (a.completed = b.completed ∧
      (b.urgency.token.data < a.urgency.token.data ∨
        (a.urgency = b.urgency ∧ b.createdAt ≤ a.createdAt)))

/-! ### Concrete fixtures for witnesses and counterexamples -/

/-- Store with one project (id 1), one goal (id 2) and one incomplete
task (id 3). -/
def exampleDB : DB :=
  ⟨[⟨1, "P", 0, 0, none⟩], [⟨2, 1, "G", 0, 0, none⟩],
   [⟨3, 2, "T", false, .MIDDEN, false, 0, 0, none, none⟩], 4⟩

/-- Snapshot that matches `exampleDB` entity-for-entity with identical
content. -/
def exampleMatchedReq : SyncReq :=
  ⟨[⟨some 1, "P", [⟨some 2, "G", [⟨some 3, "T", false, .MIDDEN, false, none⟩]⟩]⟩], none⟩

/-- Snapshot matching task 3 of `exampleDB` with `completed = true` but
`completedAt = null`. -/
def exampleBadCompletionReq : SyncReq :=
  ⟨[⟨some 1, "P", [⟨some 2, "G", [⟨some 3, "T", true, .MIDDEN, false, none⟩]⟩]⟩], none⟩

/-- Store whose only project (id 1) is soft-deleted. -/
def exampleDeletedProjDB : DB :=
  ⟨[⟨1, "P", 0, 0, some 5⟩], [], [], 4⟩

/-- Snapshot that references the soft-deleted project by id and carries a
fresh goal with one fresh task. -/
def exampleRematchReq : SyncReq :=
  ⟨[⟨some 1, "Q", [⟨none, "G2", [⟨none, "T2", false, .HOOG, true, none⟩]⟩]⟩], none⟩

/-- Empty store. -/
def emptyDB : DB :=
  ⟨[], [], [], 0⟩

/-- Snapshot creating two fresh projects (two individually-committed
writes). -/
def exampleTwoCreatesReq : SyncReq :=
  ⟨[⟨none, "A", []⟩, ⟨none, "B", []⟩], none⟩

/-- Client project without id whose nested goal and task carry
(untrusted) ids. -/
def exampleNestedIdsProject : ClientProject :=
  ⟨none, "A", [⟨some 7, "G", [⟨some 8, "T", false, .MIDDEN, false, none⟩]⟩]⟩

/-- Skeleton of a project row: everything except the mutable name and
the auto-bumped updatedAt. -/
def Project.skel (p : Project) : Nat × Nat × Option Nat :=
  (p.id, p.createdAt, p.deletedAt)

/-- Skeleton of a goal row: everything except the mutable name and the
auto-bumped updatedAt. -/
def Goal.skel (g : Goal) : Nat × Nat × Nat × Option Nat :=
  (g.id, g.projectId, g.createdAt, g.deletedAt)

/-- Skeleton of a task row: everything except the client-writable content
and the auto-bumped updatedAt. -/
def Task.skel (t : Task) : Nat × Nat × Nat × Option Nat :=
  (t.id, t.goalId, t.createdAt, t.deletedAt)

/-! ## Theorems -/

/-- Keyed lookup in a list with pairwise-distinct keys finds a given
member. -/
theorem find?_key_eq_some_of_nodup {α : Type} (key : α → Nat) (l : List α)
    (hnd : (l.map key).Nodup) (a : α) (ha : a ∈ l) (k : Nat) (hk : key a = k) :
    l.find? (fun x => key x == k) = some a := by
  induction l with
  | nil => cases ha
  | cons b l ih =>
    by_cases hb : key b = k
    · have hab : b = a := by
        rcases List.mem_cons.mp ha with h | h
        · exact h.symm
        · exact (List.inj_on_of_nodup_map hnd (List.mem_cons_self b l)
            (List.mem_cons_of_mem b h) (by rw [hb, hk])).symm ▸ rfl
      rw [List.find?_cons_of_pos _ (by simpa using hb), hab]
    · have ha' : a ∈ l := by
        rcases List.mem_cons.mp ha with h | h
        · exact absurd (h ▸ hk) hb
        · exact h
      rw [List.find?_cons_of_neg _ (by simpa using hb)]
      exact ih (by simpa using hnd.of_cons) ha'

/-- Sum form of the `reduce`-style task totalling. -/
theorem foldl_taskLen (l : List ClientGoal) (n : Nat) :
    l.foldl (fun sum g => sum + g.tasks.length) n =
      n + (l.flatMap ClientGoal.tasks).length := by
  induction l generalizing n with
  | nil => simp
  | cons g l ih => simp [ih]; omega

/-- The `taskTotal` counter counts exactly the nested tasks. -/
theorem taskTotal_eq_flatMap_length (cp : ClientProject) :
    cp.taskTotal = (cp.goals.flatMap ClientGoal.tasks).length := by
  unfold ClientProject.taskTotal
  simpa using foldl_taskLen cp.goals 0

/-- Batch task creation appends exactly the client rows (content copied,
parent and soft-delete marker set) and advances the id generator. -/
theorem createTask_foldl (now gid : Nat) (ts : List ClientTask) (d0 : DB) :
    ∃ newTasks : List Task,
      ts.foldl (fun d ct => d.createTaskFromClient now gid ct) d0 =
          { projects := d0.projects, goals := d0.goals,
            tasks := d0.tasks ++ newTasks, nextId := d0.nextId + ts.length } ∧
        newTasks.map Task.syncContent = ts.map ClientTask.syncContent ∧
        newTasks.length = ts.length ∧
        ∀ t ∈ newTasks, t.goalId = gid ∧ t.deletedAt = none ∧ t.createdAt = now := by
  induction ts generalizing d0 with
  | nil => exact ⟨[], by simp, by simp, by simp, by simp⟩
  | cons ct ts ih =>
    obtain ⟨new, heq, hcon, hlen, hprops⟩ := ih (d0.createTaskFromClient now gid ct)
    refine ⟨⟨d0.nextId, gid, ct.name, ct.completed, ct.urgency, ct.todaysFocus,
      now, now, ct.completedAt, none⟩ :: new, ?_, ?_, ?_, ?_⟩
    · rw [List.foldl_cons, heq]
      simp [DB.createTaskFromClient, List.append_assoc]
      omega
    · simpa [Task.syncContent, ClientTask.syncContent] using hcon
    · simpa using hlen
    · intro t ht
      rcases List.mem_cons.mp ht with h | h
      · subst h; exact ⟨rfl, rfl, rfl⟩
      · exact hprops t h

/-- One nested goal create (`prisma.goal.create` with nested task creates)
appends one goal row under `pid` plus its task rows. -/
theorem createGoalWithTasks_spec (now pid : Nat) (cg : ClientGoal) (db : DB) :
    ∃ newTasks : List Task,
      db.createGoalWithTasks now pid cg =
          { projects := db.projects,
            goals := db.goals ++ [⟨db.nextId, pid, cg.name, now, now, none⟩],
            tasks := db.tasks ++ newTasks,
            nextId := db.nextId + 1 + cg.tasks.length } ∧
        newTasks.map Task.syncContent = cg.tasks.map ClientTask.syncContent ∧
        newTasks.length = cg.tasks.length ∧
        ∀ t ∈ newTasks, t.goalId = db.nextId ∧ t.deletedAt = none ∧ t.createdAt = now := by
  unfold DB.createGoalWithTasks
  obtain ⟨new, heq, hcon, hlen, hprops⟩ := createTask_foldl now db.nextId cg.tasks
    { db with
      goals := db.goals ++ [⟨db.nextId, pid, cg.name, now, now, none⟩]
      nextId := db.nextId + 1 }
  exact ⟨new, heq, hcon, hlen, hprops⟩

/-- Batch goal creation appends exactly the client goal rows under `pid`
and their task rows. -/
theorem createGoal_foldl (now pid : Nat) (gs : List ClientGoal) (d0 : DB) :
    ∃ (newGoals : List Goal) (newTasks : List Task),
      (gs.foldl (fun d cg => d.createGoalWithTasks now pid cg) d0).projects = d0.projects ∧
        (gs.foldl (fun d cg => d.createGoalWithTasks now pid cg) d0).goals =
          d0.goals ++ newGoals ∧
        (gs.foldl (fun d cg => d.createGoalWithTasks now pid cg) d0).tasks =
          d0.tasks ++ newTasks ∧
        newGoals.map Goal.name = gs.map ClientGoal.name ∧
        newGoals.length = gs.length ∧
        (∀ g ∈ newGoals, g.projectId = pid ∧ g.deletedAt = none ∧ g.createdAt = now) ∧
        newTasks.map Task.syncContent = (gs.flatMap ClientGoal.tasks).map ClientTask.syncContent ∧
        newTasks.length = (gs.flatMap ClientGoal.tasks).length ∧
        (∀ t ∈ newTasks, t.deletedAt = none ∧ t.createdAt = now) := by
  induction gs generalizing d0 with
  | nil => exact ⟨[], [], by simp, by simp, by simp, by simp, by simp, by simp, by simp, by simp, by simp⟩
  | cons cg gs ih =>
    obtain ⟨newT0, heq0, hcon0, hlen0, hprops0⟩ := createGoalWithTasks_spec now pid cg d0
    obtain ⟨ng, nt, hproj, hgoals, htasks, hnames, hglen, hgprops, htcon, htlen, htprops⟩ :=
      ih (d0.createGoalWithTasks now pid cg)
    refine ⟨⟨d0.nextId, pid, cg.name, now, now, none⟩ :: ng, newT0 ++ nt, ?_, ?_, ?_, ?_, ?_, ?_, ?_, ?_, ?_⟩
    · rw [List.foldl_cons, hproj, heq0]
    · rw [List.foldl_cons, hgoals, heq0]
      simp [List.append_assoc]
    · rw [List.foldl_cons, htasks, heq0]
      simp [List.append_assoc]
    · simpa using hnames
    · simpa using hglen
    · intro g hg
      rcases List.mem_cons.mp hg with h | h
      · subst h; exact ⟨rfl, rfl, rfl⟩
      · exact hgprops g h
    · simp only [List.flatMap_cons, List.map_append, hcon0, htcon]
    · simp [htlen, hlen0]
    · intro t ht
      rcases List.mem_append.mp ht with h | h
      · exact ⟨(hprops0 t h).2.1, (hprops0 t h).2.2⟩
      · exact htprops t h

/-- A whole-subtree project create appends one project row, the client's
goal rows beneath it and all their task rows. -/
theorem createProjectSubtree_spec (now : Nat) (cp : ClientProject) (db : DB) :
    ∃ (newGoals : List Goal) (newTasks : List Task),
      (db.createProjectSubtree now cp).projects =
          db.projects ++ [⟨db.nextId, cp.name, now, now, none⟩] ∧
        (db.createProjectSubtree now cp).goals = db.goals ++ newGoals ∧
        (db.createProjectSubtree now cp).tasks = db.tasks ++ newTasks ∧
        newGoals.map Goal.name = cp.goals.map ClientGoal.name ∧
        newGoals.length = cp.goals.length ∧
        (∀ g ∈ newGoals, g.projectId = db.nextId ∧ g.deletedAt = none ∧ g.createdAt = now) ∧
        newTasks.map Task.syncContent =
          (cp.goals.flatMap ClientGoal.tasks).map ClientTask.syncContent ∧
        newTasks.length = cp.taskTotal ∧
        (∀ t ∈ newTasks, t.deletedAt = none ∧ t.createdAt = now) := by
  unfold DB.createProjectSubtree
  obtain ⟨ng, nt, hproj, hgoals, htasks, hnames, hglen, hgprops, htcon, htlen, htprops⟩ :=
    createGoal_foldl now db.nextId cp.goals
      { db with
        projects := db.projects ++ [⟨db.nextId, cp.name, now, now, none⟩]
        nextId := db.nextId + 1 }
  exact ⟨ng, nt, hproj, hgoals, htasks, hnames, hglen, hgprops, htcon,
    by rw [htlen, taskTotal_eq_flatMap_length], htprops⟩

/-- Justification that `Urgency.textRank` reproduces the TEXT-column
collation of the stored tokens (lexicographic character order). -/
theorem textRank_lt_iff_token_lt (u v : Urgency) :
    u.textRank < v.textRank ↔ u.token.data < v.token.data := by
  cases u <;> cases v <;> decide

/-- The executable task-list comparator entails the spec-side order
relation. -/
theorem taskListLe_imp_spec (a b : Task) (h : taskListLe a b) :
    specAllTasksOrder a b := by
  unfold taskListLe at h
  unfold specAllTasksOrder
  cases ha : a.todaysFocus <;> cases hb : b.todaysFocus <;>
    cases hca : a.completed <;> cases hcb : b.completed <;> simp_all

/-- The executable today's-focus comparator entails the spec-side order
relation. -/
theorem todaysOrderLe_imp_spec (a b : Task) (h : todaysOrderLe a b) :
    specTodaysOrder a b := by
  unfold todaysOrderLe at h
  unfold specTodaysOrder
  cases hca : a.completed <;> cases hcb : b.completed <;>
    cases hu : a.urgency <;> cases hv : b.urgency <;>
      simp_all [Urgency.textRank, Urgency.token] <;> first | omega | decide

/-- C9: task list reads return tasks ordered by todaysFocus descending,
then completed ascending, then createdAt descending, and are a
permutation of the filtered row set; the today's-focus listing is ordered
by completed ascending, then urgency descending (stored-token order),
then createdAt descending. -/
theorem taskListOrderings (db : DB) (q : TaskQuery) :
    (getAllTasks db q).Pairwise specAllTasksOrder ∧
      (getAllTasks db q).Perm (db.tasks.filter (taskMatchesQuery q)) ∧
      (getTodaysTasks db).Pairwise specTodaysOrder ∧
      (getTodaysTasks db).Perm (db.tasks.filter (fun t => t.deletedAt.isNone && t.todaysFocus)) := by
  refine ⟨?_, List.perm_insertionSort _ _, ?_, List.perm_insertionSort _ _⟩
  · exact (List.sorted_insertionSort taskListLe _).imp (fun h => taskListLe_imp_spec _ _ h)
  · exact (List.sorted_insertionSort todaysOrderLe _).imp (fun h => todaysOrderLe_imp_spec _ _ h)

/-- C8: the whole output of a reconciliation run — merged store, counts
and returned `serverState` — does not depend on `lastSyncedAt` (the
watermark-filtered fetch is dead), and the returned `serverState` is
exactly the full non-deleted hierarchy of the post-merge store. -/
theorem syncData_watermark_independent (now : Nat) (db : DB)
    (ps : List ClientProject) (w : Option Nat) :
    syncData now db ⟨ps, w⟩ = syncData now db ⟨ps, none⟩ ∧
      (syncData now db ⟨ps, w⟩).2.2 = (syncData now db ⟨ps, w⟩).1.serverState :=
  ⟨rfl, rfl⟩

/-- C5: a client goal whose id matches no goal of the project snapshot is
a per-entity no-op (no store mutation for it or its tasks, no counter
change), and likewise a client task whose id matches no task of the goal
snapshot; no error is raised (the processing functions are total). -/
theorem syncSkipsUnmatched :
    (∀ (now pid : Nat) (snapGoals : List GoalSnap) (acc : DB × SyncResults)
        (cg : ClientGoal) (gid : Nat), cg.id = some gid →
        (∀ s ∈ snapGoals, s.goal.id ≠ gid) →
        processClientGoal now pid snapGoals acc cg = acc) ∧
      (∀ (now gid : Nat) (snapTasks : List Task) (acc : DB × SyncResults)
        (ct : ClientTask) (tid : Nat), ct.id = some tid →
        (∀ t ∈ snapTasks, t.id ≠ tid) →
        processClientTask now gid snapTasks acc ct = acc) := by
  constructor
  · intro now pid snapGoals acc cg gid hid hno
    unfold processClientGoal
    rw [hid]
    have hfind : snapGoals.find? (fun s => s.goal.id == gid) = none := by
      rw [List.find?_eq_none]
      intro s hs
      simpa using hno s hs
    simp [hfind]
  · intro now gid snapTasks acc ct tid hid hno
    unfold processClientTask
    rw [hid]
    have hfind : snapTasks.find? (fun t => t.id == tid) = none := by
      rw [List.find?_eq_none]
      intro t ht
      simpa using hno t ht
    simp [hfind]

/-- Witness for `syncSkipsUnmatched` at a concrete unmatched goal and
task. -/
theorem syncSkipsUnmatched_witness :
    processClientGoal 0 1 [] (emptyDB, SyncResults.init) ⟨some 9, "x", []⟩ =
        (emptyDB, SyncResults.init) ∧
      processClientTask 0 1 [] (emptyDB, SyncResults.init)
          ⟨some 9, "x", false, .MIDDEN, false, none⟩ =
        (emptyDB, SyncResults.init) :=
  ⟨syncSkipsUnmatched.1 0 1 [] _ _ 9 rfl (by simp),
   syncSkipsUnmatched.2 0 1 [] _ _ 9 rfl (by simp)⟩

/-- Task creation from client data never reads the client-carried task id. -/
theorem createTaskFromClient_stripId (db : DB) (now gid : Nat) (ct : ClientTask) :
    db.createTaskFromClient now gid { ct with id := none } =
      db.createTaskFromClient now gid ct := rfl

/-- Nested goal creation never reads the client-carried goal or task ids. -/
theorem createGoalWithTasks_stripIds (db : DB) (now pid : Nat) (cg : ClientGoal) :
    db.createGoalWithTasks now pid
        { cg with id := none, tasks := cg.tasks.map (fun ct => { ct with id := none }) } =
      db.createGoalWithTasks now pid cg := by
  unfold DB.createGoalWithTasks
  rw [List.foldl_map]
  rfl

/-- Whole-subtree project creation never reads the client-carried nested
ids. -/
theorem createProjectSubtree_stripIds (db : DB) (now : Nat) (cp : ClientProject) :
    db.createProjectSubtree now cp.stripSubtreeIds = db.createProjectSubtree now cp := by
  unfold DB.createProjectSubtree ClientProject.stripSubtreeIds
  rw [List.foldl_map]
  simp only [createGoalWithTasks_stripIds]

/-- Id stripping preserves the client-side task total. -/
theorem taskTotal_stripSubtreeIds (cp : ClientProject) :
    cp.stripSubtreeIds.taskTotal = cp.taskTotal := by
  rw [taskTotal_eq_flatMap_length, taskTotal_eq_flatMap_length]
  unfold ClientProject.stripSubtreeIds
  simp [List.flatMap_map, List.length_flatMap, Function.comp]
  congr 1
  apply List.map_congr_left
  intro a _
  simp

/-- C4: a client project with no id creates exactly one new project with
its full nested subtree; the created counters grow by exactly the subtree
size (1 project, one per nested goal, one per nested task), the updated
counters are untouched, and the nested client ids are irrelevant. -/
theorem syncCreatesSubtreeWithoutId (now : Nat) (acc : DB × SyncResults)
    (cp : ClientProject) (h : cp.id = none) :
    (processClientProject now acc cp).2 =
        { created := ⟨acc.2.created.projects + 1, acc.2.created.goals + cp.goals.length,
            acc.2.created.tasks + cp.taskTotal⟩,
          updated := acc.2.updated } ∧
      processClientProject now acc cp.stripSubtreeIds = processClientProject now acc cp ∧
      ∃ (newGoals : List Goal) (newTasks : List Task),
        (processClientProject now acc cp).1.projects =
            acc.1.projects ++ [⟨acc.1.nextId, cp.name, now, now, none⟩] ∧
          (processClientProject now acc cp).1.goals = acc.1.goals ++ newGoals ∧
          (processClientProject now acc cp).1.tasks = acc.1.tasks ++ newTasks ∧
          newGoals.map Goal.name = cp.goals.map ClientGoal.name ∧
          newGoals.length = cp.goals.length ∧
          (∀ g ∈ newGoals, g.projectId = acc.1.nextId ∧ g.deletedAt = none) ∧
          newTasks.map Task.syncContent =
            (cp.goals.flatMap ClientGoal.tasks).map ClientTask.syncContent ∧
          newTasks.length = cp.taskTotal := by
  have hstrip : cp.stripSubtreeIds.id = none := h
  refine ⟨?_, ?_, ?_⟩
  · unfold processClientProject
    rw [h]
  · unfold processClientProject
    rw [h, hstrip]
    have hlen : cp.stripSubtreeIds.goals.length = cp.goals.length := by
      unfold ClientProject.stripSubtreeIds
      simp
    rw [createProjectSubtree_stripIds, taskTotal_stripSubtreeIds, hlen]
  · obtain ⟨ng, nt, hproj, hgoals, htasks, hnames, hglen, hgprops, htcon, htlen, htprops⟩ :=
      createProjectSubtree_spec now cp acc.1
    refine ⟨ng, nt, ?_, ?_, ?_, hnames, hglen,
      fun g hg => ⟨(hgprops g hg).1, (hgprops g hg).2.1⟩, htcon, htlen⟩
    · unfold processClientProject
      rw [h]
      exact hproj
    · unfold processClientProject
      rw [h]
      exact hgoals
    · unfold processClientProject
      rw [h]
      exact htasks

/-- Witness for `syncCreatesSubtreeWithoutId`: a no-id project whose
nested goal and task do carry ids still creates the full subtree and
counts it. -/
theorem syncCreatesSubtreeWithoutId_witness :
    (processClientProject 0 (emptyDB, SyncResults.init) exampleNestedIdsProject).2 =
      ⟨⟨1, 1, 1⟩, ⟨0, 0, 0⟩⟩ := by
  have h := (syncCreatesSubtreeWithoutId 0 (emptyDB, SyncResults.init)
    exampleNestedIdsProject rfl).1
  rw [h]
  rfl

/-- C10: the reconciler's project lookup does not exclude soft-deleted
rows: a client project whose id equals a soft-deleted server project is
treated as found — its name may be updated and new goals (with tasks) are
created beneath the soft-deleted project. -/
theorem syncUpdatesSoftDeletedProject
    (db : DB) (res : SyncResults) (now pid d : Nat) (p : Project)
    (cg : ClientGoal) (pname : String)
    (hnd : (db.projects.map Project.id).Nodup)
    (hmem : p ∈ db.projects) (hid : p.id = pid) (_hdel : p.deletedAt = some d)
    (hg : cg.id = none) :
    db.findProjectAny pid = some p ∧
      ∃ newTasks : List Task,
        (processClientProject now (db, res) ⟨some pid, pname, [cg]⟩).1.goals =
            db.goals ++ [⟨db.nextId, pid, cg.name, now, now, none⟩] ∧
          (processClientProject now (db, res) ⟨some pid, pname, [cg]⟩).1.tasks =
            db.tasks ++ newTasks ∧
          newTasks.map Task.syncContent = cg.tasks.map ClientTask.syncContent ∧
          (processClientProject now (db, res) ⟨some pid, pname, [cg]⟩).2.created.goals =
            res.created.goals + 1 ∧
          (processClientProject now (db, res) ⟨some pid, pname, [cg]⟩).2.created.tasks =
            res.created.tasks + cg.tasks.length ∧
          (p.name ≠ pname →
            (processClientProject now (db, res) ⟨some pid, pname, [cg]⟩).2.updated.projects =
                res.updated.projects + 1 ∧
              ∀ q ∈ (processClientProject now (db, res) ⟨some pid, pname, [cg]⟩).1.projects,
                q.id = pid → q.name = pname) := by
  have hfind : db.findProjectAny pid = some p :=
    find?_key_eq_some_of_nodup Project.id db.projects hnd p hmem pid hid
  refine ⟨hfind, ?_⟩
  have hsnap : db.projectSnapshot pid =
      some (p, (db.goalsOfProject pid).map (fun g => ⟨g, db.tasksOfGoal g.id⟩)) := by
    unfold DB.projectSnapshot
    rw [hfind]
  have hunfold : processClientProject now (db, res) ⟨some pid, pname, [cg]⟩ =
      processClientGoal now pid ((db.goalsOfProject pid).map (fun g => ⟨g, db.tasksOfGoal g.id⟩))
        (if p.name ≠ pname then
          (db.updateProjectName now pid pname,
           { res with updated := { res.updated with projects := res.updated.projects + 1 } })
         else (db, res)) cg := by
    unfold processClientProject
    dsimp only
    rw [hsnap]
    rfl
  by_cases hne : p.name ≠ pname
  · set db1 : DB := db.updateProjectName now pid pname with hdb1
    have hbase : db1.goals = db.goals ∧ db1.tasks = db.tasks ∧ db1.nextId = db.nextId :=
      ⟨rfl, rfl, rfl⟩
    obtain ⟨nt, heq, hcon, hlen, hprops⟩ := createGoalWithTasks_spec now pid cg db1
    have hstep : processClientProject now (db, res) ⟨some pid, pname, [cg]⟩ =
        (db1.createGoalWithTasks now pid cg,
         ⟨⟨res.created.projects, res.created.goals + 1, res.created.tasks + cg.tasks.length⟩,
          { res.updated with projects := res.updated.projects + 1 }⟩) := by
      rw [hunfold]
      simp only [if_pos hne]
      unfold processClientGoal
      rw [hg]
    refine ⟨nt, ?_, ?_, hcon, ?_, ?_, ?_⟩
    · rw [hstep, heq]
      rfl
    · rw [hstep, heq]
      rfl
    · rw [hstep]
    · rw [hstep]
    · intro _
      constructor
      · rw [hstep]
      · intro q hq hqid
        rw [hstep] at hq
        have : q ∈ (db1.createGoalWithTasks now pid cg).projects := hq
        rw [heq] at this
        have hq1 : q ∈ db1.projects := this
        rw [hdb1] at hq1
        unfold DB.updateProjectName at hq1
        simp only [List.mem_map] at hq1
        obtain ⟨pp, hpp, hqeq⟩ := hq1
        by_cases hppid : pp.id == pid
        · rw [if_pos hppid] at hqeq
          exact hqeq ▸ rfl
        · rw [if_neg hppid] at hqeq
          subst hqeq
          exact absurd (by simpa using hqid) (by simpa using hppid)
  · obtain ⟨nt, heq, hcon, hlen, hprops⟩ := createGoalWithTasks_spec now pid cg db
    have hstep : processClientProject now (db, res) ⟨some pid, pname, [cg]⟩ =
        (db.createGoalWithTasks now pid cg,
         ⟨⟨res.created.projects, res.created.goals + 1, res.created.tasks + cg.tasks.length⟩,
          res.updated⟩) := by
      rw [hunfold]
      simp only [if_neg hne]
      unfold processClientGoal
      rw [hg]
    refine ⟨nt, ?_, ?_, hcon, ?_, ?_, fun h => absurd h hne⟩
    · rw [hstep, heq]
    · rw [hstep, heq]
    · rw [hstep]
    · rw [hstep]

/-- Witness for `syncUpdatesSoftDeletedProject`: a fresh goal is created
under the soft-deleted project with id 1. -/
theorem syncUpdatesSoftDeletedProject_witness :
    (processClientProject 7 (exampleDeletedProjDB, SyncResults.init)
        ⟨some 1, "Q", [⟨none, "G2", [⟨none, "T2", false, .HOOG, true, none⟩]⟩]⟩).1.goals =
      exampleDeletedProjDB.goals ++ [⟨4, 1, "G2", 7, 7, none⟩] := by
  have h := syncUpdatesSoftDeletedProject exampleDeletedProjDB SyncResults.init 7 1 5
    ⟨1, "P", 0, 0, some 5⟩ ⟨none, "G2", [⟨none, "T2", false, .HOOG, true, none⟩]⟩ "Q"
    (by decide) (by decide) rfl rfl rfl
  exact h.2.choose_spec.1

/-- C2 counterexample: the pre-state satisfies the completion-timestamp
invariant, but after a sync reconciliation of an id-matched task carrying
`completed = true` with `completedAt = null`, the invariant is violated
(the reconciler copies both fields verbatim). -/
theorem completionInvariant_cex :
    completionInvariant exampleDB ∧
      ¬ completionInvariant (syncData 1 exampleDB exampleBadCompletionReq).1 := by
  unfold completionInvariant
  decide

/-- C2 (amended): the CRUD task-update path preserves the
completion-timestamp invariant on a well-keyed store (setting
`completedAt` on a false→true transition and clearing it on true→false),
while the reconciler's id-matched task update writes the client's
`completed` and `completedAt` verbatim, so it maintains the invariant only
if the client pair does. -/
theorem updateTaskPreservesCompletion :
    (∀ (db : DB) (now i : Nat) (u : UpdateTaskData) (db2 : DB),
        updateTask db now i u = .ok db2 →
        (db.tasks.map Task.id).Nodup →
        completionInvariant db → completionInvariant db2) ∧
      (∀ (db : DB) (now tid : Nat) (ct : ClientTask),
        ∀ t ∈ (db.updateTaskFromClient now tid ct).tasks, t.id = tid →
          t.completed = ct.completed ∧ t.completedAt = ct.completedAt) := by
  constructor
  · intro db now i u db2 hok hnd hinv
    unfold updateTask at hok
    cases hfind : db.tasks.find? (fun t => t.id == i && t.deletedAt.isNone) with
    | none => rw [hfind] at hok; cases hok
    | some existing =>
      rw [hfind] at hok
      dsimp only at hok
      have hex_mem : existing ∈ db.tasks := List.mem_of_find?_eq_some hfind
      have hex_pred := List.find?_some hfind
      have hex_id : existing.id = i := by
        have := (Bool.and_eq_true _ _).mp hex_pred
        simpa using this.1
      by_cases hgoal : (match u.goalId with
        | none => true
        | some gid => (db.goals.find? (fun g => g.id == gid && g.deletedAt.isNone)).isSome) = true
      · rw [if_pos hgoal] at hok
        have hdb2 := (Except.ok.injEq _ _).mp hok.symm
        intro t ht
        rw [hdb2] at ht
        simp only [List.mem_map] at ht
        obtain ⟨t0, ht0, rfl⟩ := ht
        by_cases hid : t0.id == i
        · have ht0ex : t0 = existing :=
            List.inj_on_of_nodup_map hnd ht0 hex_mem (by rw [hex_id]; exact (by simpa using hid))
          rw [if_pos hid]
          subst ht0ex
          cases hc : u.completed with
          | none =>
            simp only [hc, Option.getD]
            simpa using hinv t0 ht0
          | some c =>
            cases c <;> cases hcomp : t0.completed <;>
              simp [hc, hcomp] <;> simpa [hcomp] using hinv t0 ht0
        · rw [if_neg hid]
          exact hinv t0 ht0
      · rw [if_neg hgoal] at hok
        cases hok
  · intro db now tid ct t ht hid
    unfold DB.updateTaskFromClient at ht
    simp only [List.mem_map] at ht
    obtain ⟨t0, ht0, rfl⟩ := ht
    by_cases h0 : t0.id == tid
    · rw [if_pos h0]
      exact ⟨rfl, rfl⟩
    · rw [if_neg h0] at hid ⊢
      exact absurd (by simpa using hid) (by simpa using h0)

/-- Witness for `updateTaskPreservesCompletion`: completing task 3 of
`exampleDB` at time 5 yields a store that still satisfies the invariant. -/
theorem updateTaskPreservesCompletion_witness :
    completionInvariant
      ⟨[⟨1, "P", 0, 0, none⟩], [⟨2, 1, "G", 0, 0, none⟩],
       [⟨3, 2, "T", true, .MIDDEN, false, 0, 5, some 5, none⟩], 4⟩ :=
  updateTaskPreservesCompletion.1 exampleDB 5 3 ⟨none, none, none, some true, none⟩ _
    (by rfl) (by decide) (by unfold completionInvariant; decide)

/-- C6 counterexample: the sync reconciler creates a non-deleted goal
whose `projectId` references the soft-deleted project, violating the
referential invariant. -/
theorem referentialInvariant_cex :
    (syncData 7 exampleDeletedProjDB exampleRematchReq).1.goals.map
        (fun g => (g.projectId, g.deletedAt)) = [(1, none)] ∧
      (syncData 7 exampleDeletedProjDB exampleRematchReq).1.projects.map
        (fun p => (p.id, p.deletedAt)) = [(1, some 5)] := by
  decide

/-- C6 (amended): the CRUD façade enforces the referential invariant —
`createGoal` succeeds only when the referenced project is non-deleted,
`createTask` only when the referenced goal is non-deleted, and a task
re-parent via `updateTask` only when the new goal is non-deleted; the
sync reconciler enforces it for tasks (goals are matched among the
project's non-deleted goals) but NOT for goals created under an id-matched
project, because the project lookup ignores `deletedAt`. -/
theorem crudEnforcesParentAlive :
    (∀ (db : DB) (now pid : Nat) (nm : String) (out : DB × Goal),
        createGoal db now pid nm = .ok out →
        (∃ p ∈ db.projects, p.id = pid ∧ p.deletedAt = none) ∧ out.2.projectId = pid) ∧
      (∀ (db : DB) (now gid : Nat) (nm : String) (u : Option Urgency)
          (tf c : Option Bool) (out : DB × Task),
        createTask db now gid nm u tf c = .ok out →
        (∃ g ∈ db.goals, g.id = gid ∧ g.deletedAt = none) ∧ out.2.goalId = gid) ∧
      (∀ (db : DB) (now i : Nat) (u : UpdateTaskData) (db2 : DB) (gid : Nat),
        updateTask db now i u = .ok db2 → u.goalId = some gid →
        ∃ g ∈ db.goals, g.id = gid ∧ g.deletedAt = none) := by
  refine ⟨?_, ?_, ?_⟩
  · intro db now pid nm out hok
    unfold createGoal at hok
    cases hfind : db.projects.find? (fun p => p.id == pid && p.deletedAt.isNone) with
    | none => rw [hfind] at hok; cases hok
    | some p =>
      rw [hfind] at hok
      dsimp only at hok
      have hp := List.find?_some hfind
      have hmem := List.mem_of_find?_eq_some hfind
      have hid : p.id = pid := by
        have := (Bool.and_eq_true _ _).mp hp
        simpa using this.1
      have hnone : p.deletedAt = none := by
        have := (Bool.and_eq_true _ _).mp hp
        simpa [Option.isNone_iff_eq_none] using this.2
      refine ⟨⟨p, hmem, hid, hnone⟩, ?_⟩
      have hout := (Except.ok.injEq _ _).mp hok.symm
      rw [hout]
  · intro db now gid nm u tf c out hok
    unfold createTask at hok
    cases hfind : db.goals.find? (fun g => g.id == gid && g.deletedAt.isNone) with
    | none => rw [hfind] at hok; cases hok
    | some g =>
      rw [hfind] at hok
      dsimp only at hok
      have hg := List.find?_some hfind
      have hmem := List.mem_of_find?_eq_some hfind
      have hid : g.id = gid := by
        have := (Bool.and_eq_true _ _).mp hg
        simpa using this.1
      have hnone : g.deletedAt = none := by
        have := (Bool.and_eq_true _ _).mp hg
        simpa [Option.isNone_iff_eq_none] using this.2
      refine ⟨⟨g, hmem, hid, hnone⟩, ?_⟩
      have hout := (Except.ok.injEq _ _).mp hok.symm
      rw [hout]
  · intro db now i u db2 gid hok hgid
    unfold updateTask at hok
    cases hfind : db.tasks.find? (fun t => t.id == i && t.deletedAt.isNone) with
    | none => rw [hfind] at hok; cases hok
    | some existing =>
      rw [hfind] at hok
      dsimp only at hok
      by_cases hgoal : (match u.goalId with
        | none => true
        | some g => (db.goals.find? (fun x => x.id == g && x.deletedAt.isNone)).isSome) = true
      · rw [hgid] at hgoal
        dsimp only at hgoal
        cases hfg : db.goals.find? (fun x => x.id == gid && x.deletedAt.isNone) with
        | none => rw [hfg] at hgoal; simp at hgoal
        | some g =>
          have hg := List.find?_some hfg
          have hmem := List.mem_of_find?_eq_some hfg
          have hid2 : g.id = gid := by
            have := (Bool.and_eq_true _ _).mp hg
            simpa using this.1
          have hnone : g.deletedAt = none := by
            have := (Bool.and_eq_true _ _).mp hg
            simpa [Option.isNone_iff_eq_none] using this.2
          exact ⟨g, hmem, hid2, hnone⟩
      · rw [if_neg hgoal] at hok
        cases hok

/-- Witness for `crudEnforcesParentAlive`: creating a goal under the live
project of `exampleDB` certifies its parent is non-deleted. -/
theorem crudEnforcesParentAlive_witness :
    ∃ p ∈ exampleDB.projects, p.id = 1 ∧ p.deletedAt = none :=
  (crudEnforcesParentAlive.1 exampleDB 5 1 "H"
    (⟨{ exampleDB with goals := exampleDB.goals ++ [⟨4, 1, "H", 5, 5, none⟩], nextId := 5 },
      ⟨4, 1, "H", 5, 5, none⟩⟩) (by rfl)).1

/-- C7 counterexample: soft-deleting project 1 of `exampleDB` with the
three `new Date()` calls returning 0, 1, 2 leaves the task marked deleted
at 0, the goal at 1 and the project at 2 — the entity and its descendants
do not carry one consistent `deletedAt` value. -/
theorem softDeleteTimestamps_cex :
    (deleteProject exampleDB 1 0 1 2).map
        (fun d => (d.projects.map Project.deletedAt, d.goals.map Goal.deletedAt,
          d.tasks.map Task.deletedAt)) =
      .ok ([some 2], [some 1], [some 0]) := by
  rfl

/-- C7 (amended): `deleteProject` (and `deleteGoal`) is one atomic state
transition (the `$transaction` is modelled as a single step, so no
intermediate state is observable) that removes no row, marks the entity
and every previously non-deleted descendant deleted, and leaves everything
else untouched; however each level receives the timestamp of its own
`new Date()` call (`t1` for tasks, `t2` for goals, `t3` for the project),
which need not coincide. -/
theorem softDeleteCascade_spec :
    (∀ (db : DB) (i t1 t2 t3 : Nat) (db2 : DB),
        deleteProject db i t1 t2 t3 = .ok db2 →
        db2.projects.map Project.id = db.projects.map Project.id ∧
          db2.goals.map Goal.id = db.goals.map Goal.id ∧
          db2.tasks.map Task.id = db.tasks.map Task.id ∧
          (∀ p ∈ db2.projects, p.id = i → p.deletedAt = some t3) ∧
          (∀ g ∈ db.goals, g.projectId = i → g.deletedAt = none →
            ({ g with deletedAt := some t2, updatedAt := t2 } : Goal) ∈ db2.goals) ∧
          (∀ t ∈ db.tasks, t.deletedAt = none →
            (∃ g ∈ db.goals, g.id = t.goalId ∧ g.projectId = i) →
            ({ t with deletedAt := some t1, updatedAt := t1 } : Task) ∈ db2.tasks) ∧
          (∀ g ∈ db.goals, g.projectId ≠ i → g ∈ db2.goals) ∧
          (∀ t ∈ db.tasks, (¬ ∃ g ∈ db.goals, g.id = t.goalId ∧ g.projectId = i) →
            t ∈ db2.tasks) ∧
          (∀ p ∈ db.projects, p.id ≠ i → p ∈ db2.projects)) ∧
      (∀ (db : DB) (i t1 t2 : Nat) (db2 : DB),
        deleteGoal db i t1 t2 = .ok db2 →
        db2.projects = db.projects ∧
          db2.goals.map Goal.id = db.goals.map Goal.id ∧
          db2.tasks.map Task.id = db.tasks.map Task.id ∧
          (∀ g ∈ db2.goals, g.id = i → g.deletedAt = some t2) ∧
          (∀ t ∈ db.tasks, t.goalId = i → t.deletedAt = none →
            ({ t with deletedAt := some t1, updatedAt := t1 } : Task) ∈ db2.tasks) ∧
          (∀ t ∈ db.tasks, t.goalId ≠ i → t ∈ db2.tasks) ∧
          (∀ g ∈ db.goals, g.id ≠ i → g ∈ db2.goals)) := by
  constructor
  · intro db i t1 t2 t3 db2 hok
    unfold deleteProject at hok
    cases hfind : db.projects.find? (fun p => p.id == i && p.deletedAt.isNone) with
    | none => rw [hfind] at hok; cases hok
    | some p0 =>
      rw [hfind] at hok
      dsimp only at hok
      have hdb2 := (Except.ok.injEq _ _).mp hok
      subst hdb2
      refine ⟨?_, ?_, ?_, ?_, ?_, ?_, ?_, ?_, ?_⟩
      · simp only [List.map_map]
        apply List.map_congr_left
        intro p _
        simp only [Function.comp_apply]
        by_cases h : (p.id == i) = true
        · rw [if_pos h]
        · rw [if_neg h]
      · simp only [List.map_map]
        apply List.map_congr_left
        intro g _
        simp only [Function.comp_apply]
        by_cases h : (g.projectId == i && g.deletedAt.isNone) = true
        · rw [if_pos h]
        · rw [if_neg h]
      · simp only [List.map_map]
        apply List.map_congr_left
        intro t _
        simp only [Function.comp_apply]
        by_cases h : (db.goals.any (fun g => g.id == t.goalId && g.projectId == i) && t.deletedAt.isNone) = true
        · rw [if_pos h]
        · rw [if_neg h]
      · intro p hp hpid
        simp only [List.mem_map] at hp
        obtain ⟨p1, hp1, rfl⟩ := hp
        by_cases h : (p1.id == i) = true
        · rw [if_pos h]
        · rw [if_neg h] at hpid ⊢
          exact absurd (by simpa using hpid) (by simpa using h)
      · intro g hg hgp hgn
        have harr : (fun g => if g.projectId == i && g.deletedAt.isNone
              then { g with deletedAt := some t2, updatedAt := t2 } else g) g =
            ({ g with deletedAt := some t2, updatedAt := t2 } : Goal) := by
          simp [hgp, hgn]
        rw [← harr]
        exact List.mem_map_of_mem _ hg
      · intro t ht htn hex
        have hany : db.goals.any (fun g => g.id == t.goalId && g.projectId == i) = true := by
          obtain ⟨g, hgm, hg1, hg2⟩ := hex
          exact List.any_eq_true.mpr ⟨g, hgm, by simp [hg1, hg2]⟩
        have harr : (fun t => if db.goals.any (fun g => g.id == t.goalId && g.projectId == i) && t.deletedAt.isNone
              then { t with deletedAt := some t1, updatedAt := t1 } else t) t =
            ({ t with deletedAt := some t1, updatedAt := t1 } : Task) := by
          simp [hany, htn]
        rw [← harr]
        exact List.mem_map_of_mem _ ht
      · intro g hg hgp
        have harr : (fun g => if g.projectId == i && g.deletedAt.isNone
            then { g with deletedAt := some t2, updatedAt := t2 } else g) g = g := by
          simp [hgp]
        rw [← harr]
        exact List.mem_map_of_mem _ hg
      · intro t ht hnex
        have hany : db.goals.any (fun g => g.id == t.goalId && g.projectId == i) = false := by
          rw [List.any_eq_false]
          intro g hgm
          intro hcontra
          exact hnex ⟨g, hgm, by simpa using (Bool.and_eq_true _ _).mp hcontra |>.1,
            by simpa using (Bool.and_eq_true _ _).mp hcontra |>.2⟩
        have harr : (fun t => if db.goals.any (fun g => g.id == t.goalId && g.projectId == i) && t.deletedAt.isNone
            then { t with deletedAt := some t1, updatedAt := t1 } else t) t = t := by
          simp [hany]
        rw [← harr]
        exact List.mem_map_of_mem _ ht
      · intro p hp hpid
        have harr : (fun p => if p.id == i
            then { p with deletedAt := some t3, updatedAt := t3 } else p) p = p := by
          simp [hpid]
        rw [← harr]
        exact List.mem_map_of_mem _ hp
  · intro db i t1 t2 db2 hok
    unfold deleteGoal at hok
    cases hfind : db.goals.find? (fun g => g.id == i && g.deletedAt.isNone) with
    | none => rw [hfind] at hok; cases hok
    | some g0 =>
      rw [hfind] at hok
      dsimp only at hok
      have hdb2 := (Except.ok.injEq _ _).mp hok
      subst hdb2
      refine ⟨rfl, ?_, ?_, ?_, ?_, ?_, ?_⟩
      · simp only [List.map_map]
        apply List.map_congr_left
        intro g _
        simp only [Function.comp_apply]
        by_cases h : (g.id == i) = true
        · rw [if_pos h]
        · rw [if_neg h]
      · simp only [List.map_map]
        apply List.map_congr_left
        intro t _
        simp only [Function.comp_apply]
        by_cases h : (t.goalId == i && t.deletedAt.isNone) = true
        · rw [if_pos h]
        · rw [if_neg h]
      · intro g hg hgid
        simp only [List.mem_map] at hg
        obtain ⟨g1, hg1, rfl⟩ := hg
        by_cases h : (g1.id == i) = true
        · rw [if_pos h]
        · rw [if_neg h] at hgid ⊢
          exact absurd (by simpa using hgid) (by simpa using h)
      · intro t ht htg htn
        have harr : (fun t => if t.goalId == i && t.deletedAt.isNone
              then { t with deletedAt := some t1, updatedAt := t1 } else t) t =
            ({ t with deletedAt := some t1, updatedAt := t1 } : Task) := by
          simp [htg, htn]
        rw [← harr]
        exact List.mem_map_of_mem _ ht
      · intro t ht htg
        have harr : (fun t => if t.goalId == i && t.deletedAt.isNone
            then { t with deletedAt := some t1, updatedAt := t1 } else t) t = t := by
          simp [htg]
        rw [← harr]
        exact List.mem_map_of_mem _ ht
      · intro g hg hgid
        have harr : (fun g => if g.id == i
            then { g with deletedAt := some t2, updatedAt := t2 } else g) g = g := by
          simp [hgid]
        rw [← harr]
        exact List.mem_map_of_mem _ hg

/-- Witness for `softDeleteCascade_spec`: the goal of `exampleDB` is
marked deleted with timestamp 1 by the cascade that deletes project 1. -/
theorem softDeleteCascade_spec_witness :
    (⟨2, 1, "G", 0, 1, some 1⟩ : Goal) ∈
      ((deleteProject exampleDB 1 0 1 2).toOption.getD emptyDB).goals := by
  have h := softDeleteCascade_spec.1 exampleDB 1 0 1 2
    ((deleteProject exampleDB 1 0 1 2).toOption.getD emptyDB) (by rfl)
  exact h.2.2.2.2.1 ⟨2, 1, "G", 0, 0, none⟩ (by decide) rfl rfl

/-- A single individually-committed write consumes at most one unit of
fuel. -/
theorem tryWrite_fuel_le (w : DB → DB) (s : DB × Nat) : (tryWrite w s).2 ≤ s.2 := by
  rcases s with ⟨d, f⟩
  cases f <;> simp [tryWrite]

/-- Fuel never increases along a fold of fuel-consuming steps. -/
theorem foldl_fuel_le {α : Type} (f : (DB × Nat) → α → (DB × Nat))
    (hf : ∀ s x, (f s x).2 ≤ s.2) :
    ∀ (l : List α) (s : DB × Nat), (l.foldl f s).2 ≤ s.2 := by
  intro l
  induction l with
  | nil => intro s; exact le_refl _
  | cons x l ih => intro s; exact le_trans (ih (f s x)) (hf s x)

/-- Fuel monotonicity of the per-task fuel step. -/
theorem processClientTaskFuel_fuel_le (now gid : Nat) (snap : List Task)
    (s : DB × Nat) (ct : ClientTask) :
    (processClientTaskFuel now gid snap s ct).2 ≤ s.2 := by
  cases hct : ct.id with
  | none =>
    simp only [processClientTaskFuel, hct]
    exact tryWrite_fuel_le _ _
  | some tid =>
    simp only [processClientTaskFuel, hct]
    cases hfind : snap.find? (fun t => t.id == tid) with
    | none => exact le_refl _
    | some t => exact tryWrite_fuel_le _ _

/-- Fuel monotonicity of the per-goal fuel step. -/
theorem processClientGoalFuel_fuel_le (now pid : Nat) (snap : List GoalSnap)
    (s : DB × Nat) (cg : ClientGoal) :
    (processClientGoalFuel now pid snap s cg).2 ≤ s.2 := by
  cases hcg : cg.id with
  | none =>
    simp only [processClientGoalFuel, hcg]
    exact tryWrite_fuel_le _ _
  | some gid =>
    simp only [processClientGoalFuel, hcg]
    cases hfind : snap.find? (fun sn => sn.goal.id == gid) with
    | none => exact le_refl _
    | some sg =>
      refine le_trans
        (foldl_fuel_le _ (fun s x => processClientTaskFuel_fuel_le now gid sg.tasks s x) _ _) ?_
      by_cases hname : sg.goal.name ≠ cg.name
      · simp only [if_pos hname]
        exact tryWrite_fuel_le _ _
      · simp only [if_neg hname]
        exact le_refl _

/-- Fuel monotonicity of the per-project fuel step. -/
theorem processClientProjectFuel_fuel_le (now : Nat) (s : DB × Nat) (cp : ClientProject) :
    (processClientProjectFuel now s cp).2 ≤ s.2 := by
  cases hcp : cp.id with
  | none =>
    simp only [processClientProjectFuel, hcp]
    exact tryWrite_fuel_le _ _
  | some pid =>
    simp only [processClientProjectFuel, hcp]
    cases hsnap : s.1.projectSnapshot pid with
    | none => exact le_refl _
    | some pr =>
      rcases pr with ⟨sp, snapGoals⟩
      refine le_trans
        (foldl_fuel_le _ (fun s x => processClientGoalFuel_fuel_le now pid snapGoals s x) _ _) ?_
      by_cases hname : sp.name ≠ cp.name
      · simp only [if_pos hname]
        exact tryWrite_fuel_le _ _
      · simp only [if_neg hname]
        exact le_refl _

/-- With zero fuel a fold of fuel-consuming steps does nothing. -/
theorem foldl_fuel_zero {α : Type} (f : (DB × Nat) → α → (DB × Nat))
    (hf : ∀ db x, f (db, 0) x = (db, 0)) :
    ∀ (l : List α) (db : DB), l.foldl f (db, 0) = (db, 0) := by
  intro l
  induction l with
  | nil => intro db; rfl
  | cons x l ih =>
    intro db
    rw [List.foldl_cons, hf db x]
    exact ih db

/-- Zero fuel: per-task fuel step does nothing. -/
theorem processClientTaskFuel_zero (now gid : Nat) (snap : List Task)
    (db : DB) (ct : ClientTask) :
    processClientTaskFuel now gid snap (db, 0) ct = (db, 0) := by
  cases hct : ct.id with
  | none => simp only [processClientTaskFuel, hct]; rfl
  | some tid =>
    simp only [processClientTaskFuel, hct]
    cases hfind : snap.find? (fun t => t.id == tid) with
    | none => rfl
    | some t => rfl

/-- Zero fuel: per-goal fuel step does nothing. -/
theorem processClientGoalFuel_zero (now pid : Nat) (snap : List GoalSnap)
    (db : DB) (cg : ClientGoal) :
    processClientGoalFuel now pid snap (db, 0) cg = (db, 0) := by
  cases hcg : cg.id with
  | none => simp only [processClientGoalFuel, hcg]; rfl
  | some gid =>
    simp only [processClientGoalFuel, hcg]
    cases hfind : snap.find? (fun sn => sn.goal.id == gid) with
    | none => rfl
    | some sg =>
      dsimp only
      have hif : (if sg.goal.name ≠ cg.name
          then tryWrite (fun d => d.updateGoalName now gid cg.name) (db, 0)
          else (db, 0)) = (db, 0) := by
        by_cases hname : sg.goal.name ≠ cg.name
        · simp only [if_pos hname]; rfl
        · simp only [if_neg hname]
      rw [hif]
      exact foldl_fuel_zero _ (fun d x => processClientTaskFuel_zero now gid sg.tasks d x) _ db

/-- Zero fuel: per-project fuel step does nothing. -/
theorem processClientProjectFuel_zero (now : Nat) (db : DB) (cp : ClientProject) :
    processClientProjectFuel now (db, 0) cp = (db, 0) := by
  cases hcp : cp.id with
  | none => simp only [processClientProjectFuel, hcp]; rfl
  | some pid =>
    simp only [processClientProjectFuel, hcp]
    cases hsnap : DB.projectSnapshot db pid with
    | none => rfl
    | some pr =>
      rcases pr with ⟨sp, snapGoals⟩
      dsimp only
      have hif : (if sp.name ≠ cp.name
          then tryWrite (fun d => d.updateProjectName now pid cp.name) (db, 0)
          else (db, 0)) = (db, 0) := by
        by_cases hname : sp.name ≠ cp.name
        · simp only [if_pos hname]; rfl
        · simp only [if_neg hname]
      rw [hif]
      exact foldl_fuel_zero _ (fun d x => processClientGoalFuel_zero now pid snapGoals d x) _ db

/-- A failure before the first write leaves the store unchanged. -/
theorem syncDataUpTo_zero (now : Nat) (db : DB) (req : SyncReq) :
    syncDataUpTo now db req 0 = (db, 0) := by
  unfold syncDataUpTo
  exact foldl_fuel_zero _ (fun d x => processClientProjectFuel_zero now d x) _ db

/-- If the fuel-limited fold does not run out of fuel, its state agrees
with the unlimited fold. -/
theorem foldl_fuel_agree {α : Type} (fF : (DB × Nat) → α → (DB × Nat))
    (f : (DB × SyncResults) → α → (DB × SyncResults))
    (hmono : ∀ s x, (fF s x).2 ≤ s.2)
    (hagree : ∀ (s : DB × Nat) (x : α) (res : SyncResults),
      0 < (fF s x).2 → (fF s x).1 = (f (s.1, res) x).1) :
    ∀ (l : List α) (s : DB × Nat) (res : SyncResults),
      0 < (l.foldl fF s).2 → (l.foldl fF s).1 = (l.foldl f (s.1, res)).1 := by
  intro l
  induction l with
  | nil => intro s res _; rfl
  | cons x l ih =>
    intro s res h
    rw [List.foldl_cons, List.foldl_cons]
    have hrest : 0 < (l.foldl fF (fF s x)).2 := h
    have hstep : 0 < (fF s x).2 :=
      lt_of_lt_of_le hrest (foldl_fuel_le fF hmono l (fF s x))
    have h1 : (fF s x).1 = (f (s.1, res) x).1 := hagree s x res hstep
    have h2 := ih (fF s x) ((f (s.1, res) x).2) hrest
    rw [h2, h1]

/-- Fuel/unlimited agreement of the per-task step. -/
theorem processClientTaskFuel_agree (now gid : Nat) (snap : List Task)
    (s : DB × Nat) (ct : ClientTask) (res : SyncResults)
    (h : 0 < (processClientTaskFuel now gid snap s ct).2) :
    (processClientTaskFuel now gid snap s ct).1 =
      (processClientTask now gid snap (s.1, res) ct).1 := by
  cases hct : ct.id with
  | none =>
    simp only [processClientTaskFuel, processClientTask, hct] at h ⊢
    rcases s with ⟨d, f⟩
    cases f with
    | zero => simp [tryWrite] at h
    | succ f => rfl
  | some tid =>
    simp only [processClientTaskFuel, processClientTask, hct] at h ⊢
    cases hfind : snap.find? (fun t => t.id == tid) with
    | none => simp only [hfind]
    | some t =>
      simp only [hfind] at h ⊢
      rcases s with ⟨d, f⟩
      cases f with
      | zero => simp [tryWrite] at h
      | succ f => rfl

/-- Fuel/unlimited agreement of the per-goal step. -/
theorem processClientGoalFuel_agree (now pid : Nat) (snap : List GoalSnap)
    (s : DB × Nat) (cg : ClientGoal) (res : SyncResults)
    (h : 0 < (processClientGoalFuel now pid snap s cg).2) :
    (processClientGoalFuel now pid snap s cg).1 =
      (processClientGoal now pid snap (s.1, res) cg).1 := by
  cases hcg : cg.id with
  | none =>
    simp only [processClientGoalFuel, processClientGoal, hcg] at h ⊢
    rcases s with ⟨d, f⟩
    cases f with
    | zero => simp [tryWrite] at h
    | succ f => rfl
  | some gid =>
    simp only [processClientGoalFuel, processClientGoal, hcg] at h ⊢
    cases hfind : snap.find? (fun sn => sn.goal.id == gid) with
    | none => simp only [hfind]
    | some sg =>
      simp only [hfind] at h ⊢
      by_cases hname : sg.goal.name ≠ cg.name
      · simp only [if_pos hname] at h ⊢
        have hpos1 : 0 < (tryWrite (fun d => d.updateGoalName now gid cg.name) s).2 :=
          lt_of_lt_of_le h
            (foldl_fuel_le _ (fun s x => processClientTaskFuel_fuel_le now gid sg.tasks s x) _ _)
        rcases s with ⟨d, f⟩
        cases f with
        | zero => simp [tryWrite] at hpos1
        | succ f =>
          exact foldl_fuel_agree (processClientTaskFuel now gid sg.tasks)
            (processClientTask now gid sg.tasks)
            (fun s x => processClientTaskFuel_fuel_le now gid sg.tasks s x)
            (fun s x r hx => processClientTaskFuel_agree now gid sg.tasks s x r hx)
            cg.tasks (d.updateGoalName now gid cg.name, f) _ h
      · simp only [if_neg hname] at h ⊢
        exact foldl_fuel_agree (processClientTaskFuel now gid sg.tasks)
          (processClientTask now gid sg.tasks)
          (fun s x => processClientTaskFuel_fuel_le now gid sg.tasks s x)
          (fun s x r hx => processClientTaskFuel_agree now gid sg.tasks s x r hx)
          cg.tasks s res h

/-- Fuel/unlimited agreement of the per-project step. -/
theorem processClientProjectFuel_agree (now : Nat)
    (s : DB × Nat) (cp : ClientProject) (res : SyncResults)
    (h : 0 < (processClientProjectFuel now s cp).2) :
    (processClientProjectFuel now s cp).1 =
      (processClientProject now (s.1, res) cp).1 := by
  cases hcp : cp.id with
  | none =>
    simp only [processClientProjectFuel, processClientProject, hcp] at h ⊢
    rcases s with ⟨d, f⟩
    cases f with
    | zero => simp [tryWrite] at h
    | succ f => rfl
  | some pid =>
    simp only [processClientProjectFuel, processClientProject, hcp] at h ⊢
    cases hsnap : s.1.projectSnapshot pid with
    | none => simp only [hsnap]
    | some pr =>
      rcases pr with ⟨sp, snapGoals⟩
      simp only [hsnap] at h ⊢
      by_cases hname : sp.name ≠ cp.name
      · simp only [if_pos hname] at h ⊢
        have hpos1 : 0 < (tryWrite (fun d => d.updateProjectName now pid cp.name) s).2 :=
          lt_of_lt_of_le h
            (foldl_fuel_le _ (fun s x => processClientGoalFuel_fuel_le now pid snapGoals s x) _ _)
        rcases s with ⟨d, f⟩
        cases f with
        | zero => simp [tryWrite] at hpos1
        | succ f =>
          exact foldl_fuel_agree (processClientGoalFuel now pid snapGoals)
            (processClientGoal now pid snapGoals)
            (fun s x => processClientGoalFuel_fuel_le now pid snapGoals s x)
            (fun s x r hx => processClientGoalFuel_agree now pid snapGoals s x r hx)
            cp.goals (d.updateProjectName now pid cp.name, f) _ h
      · simp only [if_neg hname] at h ⊢
        exact foldl_fuel_agree (processClientGoalFuel now pid snapGoals)
          (processClientGoal now pid snapGoals)
          (fun s x => processClientGoalFuel_fuel_le now pid snapGoals s x)
          (fun s x r hx => processClientGoalFuel_agree now pid snapGoals s x r hx)
          cp.goals s res h

/-- A run of the pass that does not exhaust its fuel reproduces the full
merge. -/
theorem syncDataUpTo_agree (now : Nat) (db : DB) (req : SyncReq) (fuel : Nat)
    (h : 0 < (syncDataUpTo now db req fuel).2) :
    (syncDataUpTo now db req fuel).1 = (syncData now db req).1 := by
  unfold syncDataUpTo at h ⊢
  unfold syncData
  exact foldl_fuel_agree (processClientProjectFuel now) (processClientProject now)
    (fun s x => processClientProjectFuel_fuel_le now s x)
    (fun s x r hx => processClientProjectFuel_agree now s x r hx)
    req.projects (db, fuel) SyncResults.init h

/-- C1 counterexample: reconciling two fresh projects over the empty
store takes two individually-committed writes; when the second write
fails (fuel 1), the state left behind already contains the first project
— it is not the pre-sync store, contradicting "no write of the pass is
visible on error". -/
theorem syncNotAtomic_cex :
    (syncDataUpTo 0 emptyDB exampleTwoCreatesReq 1).1 ≠ emptyDB ∧
      (syncDataUpTo 0 emptyDB exampleTwoCreatesReq 1).2 = 0 ∧
      (syncDataUpTo 0 emptyDB exampleTwoCreatesReq 3).2 = 1 := by
  decide

/-- C1 (amended): the reconciliation pass is not wrapped in a
transaction; each store write commits individually.  A failure before the
first write leaves the store unchanged, and a pass that does not run out
of writes produces exactly the full merge, but a failure after k ≥ 1
writes leaves those k writes durably visible (see the counterexample for
a partial merge left behind by a mid-pass failure). -/
theorem syncWritesCommitIndividually :
    (∀ (now : Nat) (db : DB) (req : SyncReq), syncDataUpTo now db req 0 = (db, 0)) ∧
      (∀ (now : Nat) (db : DB) (req : SyncReq) (fuel : Nat),
        0 < (syncDataUpTo now db req fuel).2 →
        (syncDataUpTo now db req fuel).1 = (syncData now db req).1) :=
  ⟨syncDataUpTo_zero, syncDataUpTo_agree⟩

/-- Witness for `syncWritesCommitIndividually`: with ample fuel the
write-by-write run of the two-creates snapshot equals the full merge. -/
theorem syncWritesCommitIndividually_witness :
    (syncDataUpTo 0 emptyDB exampleTwoCreatesReq 5).1 =
      (syncData 0 emptyDB exampleTwoCreatesReq).1 :=
  syncWritesCommitIndividually.2 0 emptyDB exampleTwoCreatesReq 5 (by decide)

/-- From equality of mapped lists, every member of one list has a
counterpart in the other with the same image. -/
theorem exists_of_map_eq {α β : Type} {f : α → β} {l l2 : List α}
    (h : l2.map f = l.map f) {x : α} (hx : x ∈ l) : ∃ y ∈ l2, f y = f x := by
  have : f x ∈ l2.map f := by
    rw [h]
    exact List.mem_map_of_mem f hx
  obtain ⟨y, hy, hfy⟩ := List.mem_map.mp this
  exact ⟨y, hy, hfy⟩

/-- Facts about a reconciler project-name update: only the name and
updatedAt of the rows keyed by `pid` change. -/
theorem updateProjectName_facts (db : DB) (now pid : Nat) (nm : String) :
    (db.updateProjectName now pid nm).goals = db.goals ∧
      (db.updateProjectName now pid nm).tasks = db.tasks ∧
      (db.updateProjectName now pid nm).nextId = db.nextId ∧
      (db.updateProjectName now pid nm).projects.map Project.skel =
        db.projects.map Project.skel ∧
      (∀ p ∈ (db.updateProjectName now pid nm).projects, p.id = pid → p.name = nm) ∧
      (∀ p ∈ (db.updateProjectName now pid nm).projects, p.id ≠ pid → p ∈ db.projects) := by
  refine ⟨rfl, rfl, rfl, ?_, ?_, ?_⟩
  · unfold DB.updateProjectName
    simp only [List.map_map]
    apply List.map_congr_left
    intro p _
    simp only [Function.comp_apply]
    by_cases h : (p.id == pid) = true
    · rw [if_pos h]
      have : p.id = pid := by simpa using h
      simp [Project.skel, this]
    · rw [if_neg h]
  · intro p hp hpid
    unfold DB.updateProjectName at hp
    simp only [List.mem_map] at hp
    obtain ⟨p0, hp0, rfl⟩ := hp
    by_cases h : (p0.id == pid) = true
    · rw [if_pos h]
    · rw [if_neg h] at hpid ⊢
      exact absurd (by simpa using hpid) (by simpa using h)
  · intro p hp hpid
    unfold DB.updateProjectName at hp
    simp only [List.mem_map] at hp
    obtain ⟨p0, hp0, rfl⟩ := hp
    by_cases h : (p0.id == pid) = true
    · rw [if_pos h] at hpid
      exact absurd (by simpa using h) (by simpa using hpid)
    · rw [if_neg h]
      exact hp0

/-- Facts about a reconciler goal-name update: only the name and
updatedAt of the rows keyed by `gid` change. -/
theorem updateGoalName_facts (db : DB) (now gid : Nat) (nm : String) :
    (db.updateGoalName now gid nm).projects = db.projects ∧
      (db.updateGoalName now gid nm).tasks = db.tasks ∧
      (db.updateGoalName now gid nm).nextId = db.nextId ∧
      (db.updateGoalName now gid nm).goals.map Goal.skel = db.goals.map Goal.skel ∧
      (∀ g ∈ (db.updateGoalName now gid nm).goals, g.id = gid → g.name = nm) ∧
      (∀ g ∈ (db.updateGoalName now gid nm).goals, g.id ≠ gid → g ∈ db.goals) := by
  refine ⟨rfl, rfl, rfl, ?_, ?_, ?_⟩
  · unfold DB.updateGoalName
    simp only [List.map_map]
    apply List.map_congr_left
    intro g _
    simp only [Function.comp_apply]
    by_cases h : (g.id == gid) = true
    · rw [if_pos h]
      have : g.id = gid := by simpa using h
      simp [Goal.skel, this]
    · rw [if_neg h]
  · intro g hg hgid
    unfold DB.updateGoalName at hg
    simp only [List.mem_map] at hg
    obtain ⟨g0, hg0, rfl⟩ := hg
    by_cases h : (g0.id == gid) = true
    · rw [if_pos h]
    · rw [if_neg h] at hgid ⊢
      exact absurd (by simpa using hgid) (by simpa using h)
  · intro g hg hgid
    unfold DB.updateGoalName at hg
    simp only [List.mem_map] at hg
    obtain ⟨g0, hg0, rfl⟩ := hg
    by_cases h : (g0.id == gid) = true
    · rw [if_pos h] at hgid
      exact absurd (by simpa using h) (by simpa using hgid)
    · rw [if_neg h]
      exact hg0

/-- Facts about a reconciler last-write-wins task update: the skeleton of
the task table is preserved, the keyed rows get exactly the client
content, and other rows are untouched. -/
theorem updateTaskFromClient_facts (db : DB) (now tid : Nat) (ct : ClientTask) :
    (db.updateTaskFromClient now tid ct).projects = db.projects ∧
      (db.updateTaskFromClient now tid ct).goals = db.goals ∧
      (db.updateTaskFromClient now tid ct).nextId = db.nextId ∧
      (db.updateTaskFromClient now tid ct).tasks.map Task.skel = db.tasks.map Task.skel ∧
      (∀ t ∈ (db.updateTaskFromClient now tid ct).tasks, t.id = tid →
        t.syncContent = ct.syncContent) ∧
      (∀ t ∈ (db.updateTaskFromClient now tid ct).tasks, t.id ≠ tid → t ∈ db.tasks) := by
  refine ⟨rfl, rfl, rfl, ?_, ?_, ?_⟩
  · unfold DB.updateTaskFromClient
    simp only [List.map_map]
    apply List.map_congr_left
    intro t _
    simp only [Function.comp_apply]
    by_cases h : (t.id == tid) = true
    · rw [if_pos h]
      have : t.id = tid := by simpa using h
      simp [Task.skel, this]
    · rw [if_neg h]
  · intro t ht htid
    unfold DB.updateTaskFromClient at ht
    simp only [List.mem_map] at ht
    obtain ⟨t0, ht0, rfl⟩ := ht
    by_cases h : (t0.id == tid) = true
    · rw [if_pos h]
      rfl
    · rw [if_neg h] at htid ⊢
      exact absurd (by simpa using htid) (by simpa using h)
  · intro t ht htid
    unfold DB.updateTaskFromClient at ht
    simp only [List.mem_map] at ht
    obtain ⟨t0, ht0, rfl⟩ := ht
    by_cases h : (t0.id == tid) = true
    · rw [if_pos h] at htid
      exact absurd (by simpa using h) (by simpa using htid)
    · rw [if_neg h]
      exact ht0

/-- If the task rows already carry the client content, the last-write-wins
update changes the table only up to `updatedAt`. -/
theorem updateTaskFromClient_strip (db : DB) (now tid : Nat) (ct : ClientTask)
    (hagree : ∀ t ∈ db.tasks, t.id = tid → t.syncContent = ct.syncContent) :
    (db.updateTaskFromClient now tid ct).tasks.map Task.stripUpdated =
      db.tasks.map Task.stripUpdated := by
  unfold DB.updateTaskFromClient
  simp only [List.map_map]
  apply List.map_congr_left
  intro t ht
  simp only [Function.comp_apply]
  by_cases h : (t.id == tid) = true
  · rw [if_pos h]
    have hc := hagree t ht (by simpa using h)
    simp only [Task.syncContent, ClientTask.syncContent, Prod.mk.injEq] at hc
    obtain ⟨h1, h2, h3, h4, h5⟩ := hc
    simp [Task.stripUpdated, h1, h2, h3, h4, h5]
  · rw [if_neg h]

/-- Skeleton equality of task tables transfers row-level content
agreements. -/
theorem agree_of_strip_eq {l l2 : List Task}
    (h : l2.map Task.stripUpdated = l.map Task.stripUpdated)
    {tid : Nat} {c : String × Bool × Urgency × Bool × Option Nat}
    (hagree : ∀ t ∈ l, t.id = tid → t.syncContent = c) :
    ∀ t ∈ l2, t.id = tid → t.syncContent = c := by
  intro t ht htid
  obtain ⟨t0, ht0, hst⟩ : ∃ y ∈ l, Task.stripUpdated y = Task.stripUpdated t := by
    have : Task.stripUpdated t ∈ l.map Task.stripUpdated := by
      rw [← h]
      exact List.mem_map_of_mem _ ht
    obtain ⟨y, hy, hfy⟩ := List.mem_map.mp this
    exact ⟨y, hy, hfy⟩
  simp only [Task.stripUpdated, Task.mk.injEq] at hst
  obtain ⟨h1, h2, h3, h4, h5, h6, h7, -, h9, h10⟩ := hst
  have hcon : t0.syncContent = t.syncContent := by
    simp [Task.syncContent, h3, h4, h5, h6, h9]
  rw [← hcon]
  exact hagree t0 ht0 (by rw [h1, htid])

/-- An id-matched client task unconditionally takes the last-write-wins
update branch. -/
theorem processClientTask_step (now gid : Nat) (snapTasks : List Task)
    (db : DB) (res : SyncResults) (ct : ClientTask) (tid : Nat)
    (hid : ct.id = some tid)
    (hfind : (snapTasks.find? (fun t => t.id == tid)).isSome) :
    processClientTask now gid snapTasks (db, res) ct =
      (db.updateTaskFromClient now tid ct,
       { res with updated := { res.updated with tasks := res.updated.tasks + 1 } }) := by
  unfold processClientTask
  rw [hid]
  dsimp only
  obtain ⟨t0, ht0⟩ := Option.isSome_iff_exists.mp hfind
  rw [ht0]

/-- First pass over a list of id-matched client tasks: every task row
keyed by a client id ends up with exactly the client content, the task
table skeleton and the rest of the store are unchanged, and the updated
counter grows by the number of client tasks. -/
theorem taskFold_firstPass (now gid : Nat) (snapTasks : List Task) :
    ∀ (cts : List ClientTask) (db : DB) (res : SyncResults),
      (∀ ct ∈ cts, ∃ tid, ct.id = some tid ∧
        (snapTasks.find? (fun t => t.id == tid)).isSome) →
      (cts.filterMap ClientTask.id).Nodup →
      ∃ dbN resN,
        cts.foldl (processClientTask now gid snapTasks) (db, res) = (dbN, resN) ∧
          dbN.projects = db.projects ∧ dbN.goals = db.goals ∧ dbN.nextId = db.nextId ∧
          dbN.tasks.map Task.skel = db.tasks.map Task.skel ∧
          resN.created = res.created ∧
          resN.updated.projects = res.updated.projects ∧
          resN.updated.goals = res.updated.goals ∧
          resN.updated.tasks = res.updated.tasks + cts.length ∧
          (∀ ct ∈ cts, ∀ tid, ct.id = some tid →
            ∀ t ∈ dbN.tasks, t.id = tid → t.syncContent = ct.syncContent) ∧
          (∀ tid, tid ∉ cts.filterMap ClientTask.id →
            ∀ t ∈ dbN.tasks, t.id = tid → t ∈ db.tasks) := by
  intro cts
  induction cts with
  | nil =>
    intro db res _ _
    exact ⟨db, res, rfl, rfl, rfl, rfl, rfl, rfl, rfl, rfl, rfl,
      by simp, by intro tid _ t ht _; exact ht⟩
  | cons ct cts ih =>
    intro db res hmatch hnd
    obtain ⟨tid, hid, hfind⟩ := hmatch ct (List.mem_cons_self _ _)
    have hstep := processClientTask_step now gid snapTasks db res ct tid hid hfind
    obtain ⟨hproj1, hgoals1, hnext1, hskel1, hset1, hun1⟩ :=
      updateTaskFromClient_facts db now tid ct
    have hndc : (tid :: cts.filterMap ClientTask.id).Nodup := by
      rw [List.filterMap_cons, hid] at hnd
      exact hnd
    have hnd2 : (cts.filterMap ClientTask.id).Nodup := (List.nodup_cons.mp hndc).2
    have htid_not : tid ∉ cts.filterMap ClientTask.id := (List.nodup_cons.mp hndc).1
    obtain ⟨dbN, resN, heq, hproj, hgoals, hnext, hskel, hcre, hup, hug, hut, hagree, hun⟩ :=
      ih (db.updateTaskFromClient now tid ct) _
        (fun ct2 h => hmatch ct2 (List.mem_cons_of_mem _ h)) hnd2
    refine ⟨dbN, resN, ?_, ?_, ?_, ?_, ?_, ?_, ?_, ?_, ?_, ?_, ?_⟩
    · rw [List.foldl_cons, hstep, heq]
    · rw [hproj, hproj1]
    · rw [hgoals, hgoals1]
    · rw [hnext, hnext1]
    · rw [hskel, hskel1]
    · rw [hcre]
    · rw [hup]
    · rw [hug]
    · rw [hut]
      simp only [List.length_cons]
      omega
    · intro ct2 hct2 tid2 hid2 t ht htid2
      rcases List.mem_cons.mp hct2 with h | h
      · subst h
        have htid : tid2 = tid := by
          rw [hid] at hid2
          exact (Option.some_inj.mp hid2).symm
        subst htid
        have hmem1 : t ∈ (db.updateTaskFromClient now tid2 ct2).tasks :=
          hun tid2 (by simpa using htid_not) t ht htid2
        exact hset1 t hmem1 htid2
      · exact hagree ct2 h tid2 hid2 t ht htid2
    · intro tid2 hnotin t ht htid2
      have hnotin2 : tid2 ∉ cts.filterMap ClientTask.id := by
        intro hcon
        exact hnotin (by rw [List.filterMap_cons, hid]; exact List.mem_cons_of_mem _ hcon)
      have htid2ne : tid2 ≠ tid := by
        intro hcon
        exact hnotin (by rw [List.filterMap_cons, hid, hcon]; exact List.mem_cons_self _ _)
      have hmem1 : t ∈ (db.updateTaskFromClient now tid ct).tasks :=
        hun tid2 hnotin2 t ht htid2
      exact hun1 t hmem1 (by rw [htid2]; exact htid2ne)

/-- Stable pass over a list of client tasks whose content the store
already carries: the store changes only in `updatedAt`, and the updated
counter still grows by the number of client tasks. -/
theorem taskFold_stable (now gid : Nat) (snapTasks : List Task) :
    ∀ (cts : List ClientTask) (db : DB) (res : SyncResults),
      (∀ ct ∈ cts, ∃ tid, ct.id = some tid ∧
        (snapTasks.find? (fun t => t.id == tid)).isSome ∧
        (∀ t ∈ db.tasks, t.id = tid → t.syncContent = ct.syncContent)) →
      ∃ dbN resN,
        cts.foldl (processClientTask now gid snapTasks) (db, res) = (dbN, resN) ∧
          dbN.projects = db.projects ∧ dbN.goals = db.goals ∧ dbN.nextId = db.nextId ∧
          dbN.tasks.map Task.stripUpdated = db.tasks.map Task.stripUpdated ∧
          resN.created = res.created ∧
          resN.updated.projects = res.updated.projects ∧
          resN.updated.goals = res.updated.goals ∧
          resN.updated.tasks = res.updated.tasks + cts.length := by
  intro cts
  induction cts with
  | nil =>
    intro db res _
    exact ⟨db, res, rfl, rfl, rfl, rfl, rfl, rfl, rfl, rfl, rfl⟩
  | cons ct cts ih =>
    intro db res hmatch
    obtain ⟨tid, hid, hfind, hagree⟩ := hmatch ct (List.mem_cons_self _ _)
    have hstep := processClientTask_step now gid snapTasks db res ct tid hid hfind
    obtain ⟨hproj1, hgoals1, hnext1, _, _, _⟩ := updateTaskFromClient_facts db now tid ct
    have hstrip1 := updateTaskFromClient_strip db now tid ct hagree
    have hmatch2 : ∀ ct2 ∈ cts, ∃ tid2, ct2.id = some tid2 ∧
        (snapTasks.find? (fun t => t.id == tid2)).isSome ∧
        (∀ t ∈ (db.updateTaskFromClient now tid ct).tasks, t.id = tid2 →
          t.syncContent = ct2.syncContent) := by
      intro ct2 h
      obtain ⟨tid2, hid2, hfind2, hagree2⟩ := hmatch ct2 (List.mem_cons_of_mem _ h)
      exact ⟨tid2, hid2, hfind2, agree_of_strip_eq hstrip1 hagree2⟩
    obtain ⟨dbN, resN, heq, hproj, hgoals, hnext, hstrip, hcre, hup, hug, hut⟩ :=
      ih (db.updateTaskFromClient now tid ct) _ hmatch2
    refine ⟨dbN, resN, ?_, ?_, ?_, ?_, ?_, ?_, ?_, ?_, ?_⟩
    · rw [List.foldl_cons, hstep, heq]
    · rw [hproj, hproj1]
    · rw [hgoals, hgoals1]
    · rw [hnext, hnext1]
    · rw [hstrip, hstrip1]
    · rw [hcre]
    · rw [hup]
    · rw [hug]
    · rw [hut]
      simp only [List.length_cons]
      omega

/-- Rows not keyed by a goal-name update stay in the table. -/
theorem updateGoalName_keep (db : DB) (now gid : Nat) (nm : String) :
    ∀ g ∈ db.goals, g.id ≠ gid → g ∈ (db.updateGoalName now gid nm).goals := by
  intro g hg hne
  have harr : (fun g => if g.id == gid
      then { g with name := nm, updatedAt := now } else g) g = g := by
    simp [hne]
  exact harr ▸ List.mem_map_of_mem _ hg

/-- Rows not keyed by a project-name update stay in the table. -/
theorem updateProjectName_keep (db : DB) (now pid : Nat) (nm : String) :
    ∀ p ∈ db.projects, p.id ≠ pid → p ∈ (db.updateProjectName now pid nm).projects := by
  intro p hp hne
  have harr : (fun p => if p.id == pid
      then { p with name := nm, updatedAt := now } else p) p = p := by
    simp [hne]
  exact harr ▸ List.mem_map_of_mem _ hp

/-- Goal-table skeleton equality preserves the id column. -/
theorem goalIds_of_skel {l l2 : List Goal} (h : l2.map Goal.skel = l.map Goal.skel) :
    l2.map Goal.id = l.map Goal.id := by
  have h2 := congrArg (List.map Prod.fst) h
  simpa only [List.map_map] using h2

/-- An id-matched client goal reduces to the conditional name update
followed by the task fold against the goal's snapshot. -/
theorem processClientGoal_step (now pid : Nat) (snapGoals : List GoalSnap)
    (db : DB) (res : SyncResults) (cg : ClientGoal) (gid : Nat) (sn : GoalSnap)
    (hid : cg.id = some gid)
    (hfind : snapGoals.find? (fun s => s.goal.id == gid) = some sn) :
    processClientGoal now pid snapGoals (db, res) cg =
      cg.tasks.foldl (processClientTask now gid sn.tasks)
        (if sn.goal.name ≠ cg.name then
          (db.updateGoalName now gid cg.name,
           { res with updated := { res.updated with goals := res.updated.goals + 1 } })
         else (db, res)) := by
  unfold processClientGoal
  rw [hid]
  dsimp only
  rw [hfind]

/-- First pass over a list of id-matched client goals of one project:
names and task contents end up equal to the client's, skeletons are
preserved, creations never happen, and the task-updated counter grows by
the total number of client tasks. -/
theorem goalFold_firstPass (now pid : Nat) (snapGoals : List GoalSnap) :
    ∀ (gs : List ClientGoal) (db : DB) (res : SyncResults),
      (db.goals.map Goal.id).Nodup →
      (gs.filterMap ClientGoal.id).Nodup →
      (gs.flatMap (fun cg => cg.tasks.filterMap ClientTask.id)).Nodup →
      (∀ cg ∈ gs, ∃ gid, cg.id = some gid ∧
        ∃ sn, snapGoals.find? (fun s => s.goal.id == gid) = some sn ∧
          sn.goal ∈ db.goals ∧ sn.goal.id = gid ∧
          (∀ ct ∈ cg.tasks, ∃ tid, ct.id = some tid ∧
            (sn.tasks.find? (fun t => t.id == tid)).isSome)) →
      ∃ dbN resN,
        gs.foldl (processClientGoal now pid snapGoals) (db, res) = (dbN, resN) ∧
          dbN.projects = db.projects ∧
          dbN.goals.map Goal.skel = db.goals.map Goal.skel ∧
          dbN.tasks.map Task.skel = db.tasks.map Task.skel ∧
          dbN.nextId = db.nextId ∧
          resN.created = res.created ∧
          resN.updated.projects = res.updated.projects ∧
          resN.updated.tasks = res.updated.tasks + (gs.flatMap ClientGoal.tasks).length ∧
          (∀ cg ∈ gs, ∀ gid, cg.id = some gid →
            (∀ g ∈ dbN.goals, g.id = gid → g.name = cg.name) ∧
            (∀ ct ∈ cg.tasks, ∀ tid, ct.id = some tid →
              ∀ t ∈ dbN.tasks, t.id = tid → t.syncContent = ct.syncContent)) ∧
          (∀ gid, gid ∉ gs.filterMap ClientGoal.id →
            ∀ g ∈ dbN.goals, g.id = gid → g ∈ db.goals) ∧
          (∀ tid, tid ∉ gs.flatMap (fun cg => cg.tasks.filterMap ClientTask.id) →
            ∀ t ∈ dbN.tasks, t.id = tid → t ∈ db.tasks) := by
  intro gs
  induction gs with
  | nil =>
    intro db res _ _ _ _
    exact ⟨db, res, rfl, rfl, rfl, rfl, rfl, rfl, rfl, rfl,
      by simp, by intro gid _ g hg _; exact hg, by intro tid _ t ht _; exact ht⟩
  | cons cg gs ih =>
    intro db res hwf hndg hndt hmatch
    obtain ⟨gid, hid, sn, hfind, hsnmem, hsnid, htasks⟩ := hmatch cg (List.mem_cons_self _ _)
    have hstep := processClientGoal_step now pid snapGoals db res cg gid sn hid hfind
    -- nodup bookkeeping
    have hndgc : (gid :: gs.filterMap ClientGoal.id).Nodup := by
      rw [List.filterMap_cons, hid] at hndg
      exact hndg
    have hgid_not : gid ∉ gs.filterMap ClientGoal.id := (List.nodup_cons.mp hndgc).1
    have hndg2 : (gs.filterMap ClientGoal.id).Nodup := (List.nodup_cons.mp hndgc).2
    have hndt_split : (cg.tasks.filterMap ClientTask.id ++
        gs.flatMap (fun cg => cg.tasks.filterMap ClientTask.id)).Nodup := by
      rw [List.flatMap_cons] at hndt
      exact hndt
    have hndt_head : (cg.tasks.filterMap ClientTask.id).Nodup :=
      hndt_split.of_append_left
    have hndt_tail : (gs.flatMap (fun cg => cg.tasks.filterMap ClientTask.id)).Nodup :=
      hndt_split.of_append_right
    have hdisj : ∀ tid ∈ cg.tasks.filterMap ClientTask.id,
        tid ∉ gs.flatMap (fun cg => cg.tasks.filterMap ClientTask.id) :=
      fun tid h1 h2 => List.disjoint_of_nodup_append hndt_split h1 h2
    by_cases hname : sn.goal.name ≠ cg.name
    · -- name differs: update it, then run the task fold from the updated store
      obtain ⟨hgp1, hgt1, hgn1, hgskel1, hgset1, hgun1⟩ := updateGoalName_facts db now gid cg.name
      obtain ⟨dbS, resS, heqS, hSproj, hSgoals, hSnext, hSskel, hScre, hSup, hSug, hSut,
          hSagree, hSun⟩ :=
        taskFold_firstPass now gid sn.tasks cg.tasks (db.updateGoalName now gid cg.name)
          { res with updated := { res.updated with goals := res.updated.goals + 1 } }
          htasks hndt_head
      have hSgoalskel : dbS.goals.map Goal.skel = db.goals.map Goal.skel := by
        rw [hSgoals, hgskel1]
      have hmatch2 : ∀ cg2 ∈ gs, ∃ gid2, cg2.id = some gid2 ∧
          ∃ sn2, snapGoals.find? (fun s => s.goal.id == gid2) = some sn2 ∧
            sn2.goal ∈ dbS.goals ∧ sn2.goal.id = gid2 ∧
            (∀ ct ∈ cg2.tasks, ∃ tid, ct.id = some tid ∧
              (sn2.tasks.find? (fun t => t.id == tid)).isSome) := by
        intro cg2 h2
        obtain ⟨gid2, hid2, sn2, hfind2, hmem2, hsnid2, htasks2⟩ :=
          hmatch cg2 (List.mem_cons_of_mem _ h2)
        have hne : sn2.goal.id ≠ gid := by
          rw [hsnid2]
          intro hcon
          exact hgid_not (hcon ▸ List.mem_filterMap.mpr ⟨cg2, h2, hid2⟩)
        refine ⟨gid2, hid2, sn2, hfind2, ?_, hsnid2, htasks2⟩
        rw [hSgoals]
        exact updateGoalName_keep db now gid cg.name sn2.goal hmem2 hne
      obtain ⟨dbN, resN, heqN, hNproj, hNgskel, hNtskel, hNnext, hNcre, hNup, hNut,
          hNagree, hNgun, hNtun⟩ :=
        ih dbS resS (by rw [goalIds_of_skel hSgoalskel]; exact hwf) hndg2 hndt_tail hmatch2
      refine ⟨dbN, resN, ?_, ?_, ?_, ?_, ?_, ?_, ?_, ?_, ?_, ?_, ?_⟩
      · rw [List.foldl_cons, hstep, if_pos hname, heqS, heqN]
      · rw [hNproj, hSproj, hgp1]
      · rw [hNgskel, hSgoalskel]
      · rw [hNtskel, hSskel, hgt1]
      · rw [hNnext, hSnext, hgn1]
      · rw [hNcre, hScre]
      · rw [hNup, hSup]
      · rw [hNut, hSut]
        simp only [List.flatMap_cons, List.length_append]
        omega
      · intro cg2 hcg2 gid2 hid2
        rcases List.mem_cons.mp hcg2 with h | h
        · subst h
          have hgid2 : gid2 = gid := by
            rw [hid] at hid2
            exact Option.some_inj.mp hid2.symm
          subst hgid2
          constructor
          · intro g hg hggid
            have hmemS : g ∈ dbS.goals := hNgun gid2 hgid_not g hg hggid
            rw [hSgoals] at hmemS
            exact hgset1 g hmemS hggid
          · intro ct hct tid htid t ht htidt
            have hnot : tid ∉ gs.flatMap (fun cg => cg.tasks.filterMap ClientTask.id) :=
              hdisj tid (List.mem_filterMap.mpr ⟨ct, hct, htid⟩)
            have hmemS : t ∈ dbS.tasks := hNtun tid hnot t ht htidt
            exact hSagree ct hct tid htid t hmemS htidt
        · exact hNagree cg2 h gid2 hid2
      · intro gid2 hnotin g hg hggid
        have hnotin2 : gid2 ∉ gs.filterMap ClientGoal.id := by
          intro hcon
          exact hnotin (by rw [List.filterMap_cons, hid]; exact List.mem_cons_of_mem _ hcon)
        have hne : gid2 ≠ gid := by
          intro hcon
          exact hnotin (by rw [List.filterMap_cons, hid, hcon]; exact List.mem_cons_self _ _)
        have hmemS : g ∈ dbS.goals := hNgun gid2 hnotin2 g hg hggid
        rw [hSgoals] at hmemS
        exact hgun1 g hmemS (by rw [hggid]; exact hne)
      · intro tid hnotin t ht htidt
        have hnotin2 : tid ∉ gs.flatMap (fun cg => cg.tasks.filterMap ClientTask.id) := by
          intro hcon
          exact hnotin (by rw [List.flatMap_cons]; exact List.mem_append_right _ hcon)
        have hnotinh : tid ∉ cg.tasks.filterMap ClientTask.id := by
          intro hcon
          exact hnotin (by rw [List.flatMap_cons]; exact List.mem_append_left _ hcon)
        have hmemS : t ∈ dbS.tasks := hNtun tid hnotin2 t ht htidt
        have := hSun tid hnotinh t hmemS htidt
        rw [hgt1] at this
        exact this
    · -- name already equal: no goal write, just the task fold
      have hnameeq : sn.goal.name = cg.name := not_not.mp hname
      obtain ⟨dbS, resS, heqS, hSproj, hSgoals, hSnext, hSskel, hScre, hSup, hSug, hSut,
          hSagree, hSun⟩ :=
        taskFold_firstPass now gid sn.tasks cg.tasks db res htasks hndt_head
      have hSgoalskel : dbS.goals.map Goal.skel = db.goals.map Goal.skel := by
        rw [hSgoals]
      have hmatch2 : ∀ cg2 ∈ gs, ∃ gid2, cg2.id = some gid2 ∧
          ∃ sn2, snapGoals.find? (fun s => s.goal.id == gid2) = some sn2 ∧
            sn2.goal ∈ dbS.goals ∧ sn2.goal.id = gid2 ∧
            (∀ ct ∈ cg2.tasks, ∃ tid, ct.id = some tid ∧
              (sn2.tasks.find? (fun t => t.id == tid)).isSome) := by
        intro cg2 h2
        obtain ⟨gid2, hid2, sn2, hfind2, hmem2, hsnid2, htasks2⟩ :=
          hmatch cg2 (List.mem_cons_of_mem _ h2)
        exact ⟨gid2, hid2, sn2, hfind2, by rw [hSgoals]; exact hmem2, hsnid2, htasks2⟩
      obtain ⟨dbN, resN, heqN, hNproj, hNgskel, hNtskel, hNnext, hNcre, hNup, hNut,
          hNagree, hNgun, hNtun⟩ :=
        ih dbS resS (by rw [goalIds_of_skel hSgoalskel]; exact hwf) hndg2 hndt_tail hmatch2
      refine ⟨dbN, resN, ?_, ?_, ?_, ?_, ?_, ?_, ?_, ?_, ?_, ?_, ?_⟩
      · rw [List.foldl_cons, hstep, if_neg hname, heqS, heqN]
      · rw [hNproj, hSproj]
      · rw [hNgskel, hSgoalskel]
      · rw [hNtskel, hSskel]
      · rw [hNnext, hSnext]
      · rw [hNcre, hScre]
      · rw [hNup, hSup]
      · rw [hNut, hSut]
        simp only [List.flatMap_cons, List.length_append]
        omega
      · intro cg2 hcg2 gid2 hid2
        rcases List.mem_cons.mp hcg2 with h | h
        · subst h
          have hgid2 : gid2 = gid := by
            rw [hid] at hid2
            exact Option.some_inj.mp hid2.symm
          subst hgid2
          constructor
          · intro g hg hggid
            have hmemS : g ∈ dbS.goals := hNgun gid2 hgid_not g hg hggid
            rw [hSgoals] at hmemS
            have : g = sn.goal :=
              List.inj_on_of_nodup_map hwf hmemS hsnmem (by rw [hggid, hsnid])
            rw [this, hnameeq]
          · intro ct hct tid htid t ht htidt
            have hnot : tid ∉ gs.flatMap (fun cg => cg.tasks.filterMap ClientTask.id) :=
              hdisj tid (List.mem_filterMap.mpr ⟨ct, hct, htid⟩)
            have hmemS : t ∈ dbS.tasks := hNtun tid hnot t ht htidt
            exact hSagree ct hct tid htid t hmemS htidt
        · exact hNagree cg2 h gid2 hid2
      · intro gid2 hnotin g hg hggid
        have hnotin2 : gid2 ∉ gs.filterMap ClientGoal.id := by
          intro hcon
          exact hnotin (by rw [List.filterMap_cons, hid]; exact List.mem_cons_of_mem _ hcon)
        have hmemS : g ∈ dbS.goals := hNgun gid2 hnotin2 g hg hggid
        rw [hSgoals] at hmemS
        exact hmemS
      · intro tid hnotin t ht htidt
        have hnotin2 : tid ∉ gs.flatMap (fun cg => cg.tasks.filterMap ClientTask.id) := by
          intro hcon
          exact hnotin (by rw [List.flatMap_cons]; exact List.mem_append_right _ hcon)
        have hnotinh : tid ∉ cg.tasks.filterMap ClientTask.id := by
          intro hcon
          exact hnotin (by rw [List.flatMap_cons]; exact List.mem_append_left _ hcon)
        have hmemS : t ∈ dbS.tasks := hNtun tid hnotin2 t ht htidt
        exact hSun tid hnotinh t hmemS htidt

/-- Stable pass over id-matched client goals whose names and task
contents the store already carries: no goal write happens, the store
changes only in task `updatedAt`, and the task-updated counter grows by
the total number of client tasks. -/
theorem goalFold_stable (now pid : Nat) (snapGoals : List GoalSnap) :
    ∀ (gs : List ClientGoal) (db : DB) (res : SyncResults),
      (∀ cg ∈ gs, ∃ gid, cg.id = some gid ∧
        ∃ sn, snapGoals.find? (fun s => s.goal.id == gid) = some sn ∧
          sn.goal.name = cg.name ∧
          (∀ ct ∈ cg.tasks, ∃ tid, ct.id = some tid ∧
            (sn.tasks.find? (fun t => t.id == tid)).isSome ∧
            (∀ t ∈ db.tasks, t.id = tid → t.syncContent = ct.syncContent))) →
      ∃ dbN resN,
        gs.foldl (processClientGoal now pid snapGoals) (db, res) = (dbN, resN) ∧
          dbN.projects = db.projects ∧
          dbN.goals = db.goals ∧
          dbN.tasks.map Task.stripUpdated = db.tasks.map Task.stripUpdated ∧
          dbN.nextId = db.nextId ∧
          resN.created = res.created ∧
          resN.updated.projects = res.updated.projects ∧
          resN.updated.goals = res.updated.goals ∧
          resN.updated.tasks = res.updated.tasks + (gs.flatMap ClientGoal.tasks).length := by
  intro gs
  induction gs with
  | nil =>
    intro db res _
    exact ⟨db, res, rfl, rfl, rfl, rfl, rfl, rfl, rfl, rfl, by simp⟩
  | cons cg gs ih =>
    intro db res hmatch
    obtain ⟨gid, hid, sn, hfind, hname, htasks⟩ := hmatch cg (List.mem_cons_self _ _)
    have hstep := processClientGoal_step now pid snapGoals db res cg gid sn hid hfind
    have hnotname : ¬ sn.goal.name ≠ cg.name := not_not.mpr hname
    obtain ⟨dbS, resS, heqS, hSproj, hSgoals, hSnext, hSstrip, hScre, hSup, hSug, hSut⟩ :=
      taskFold_stable now gid sn.tasks cg.tasks db res htasks
    have hmatch2 : ∀ cg2 ∈ gs, ∃ gid2, cg2.id = some gid2 ∧
        ∃ sn2, snapGoals.find? (fun s => s.goal.id == gid2) = some sn2 ∧
          sn2.goal.name = cg2.name ∧
          (∀ ct ∈ cg2.tasks, ∃ tid, ct.id = some tid ∧
            (sn2.tasks.find? (fun t => t.id == tid)).isSome ∧
            (∀ t ∈ dbS.tasks, t.id = tid → t.syncContent = ct.syncContent)) := by
      intro cg2 h2
      obtain ⟨gid2, hid2, sn2, hfind2, hname2, htasks2⟩ :=
        hmatch cg2 (List.mem_cons_of_mem _ h2)
      refine ⟨gid2, hid2, sn2, hfind2, hname2, ?_⟩
      intro ct hct
      obtain ⟨tid, htid, hfindt, hagree⟩ := htasks2 ct hct
      exact ⟨tid, htid, hfindt, agree_of_strip_eq hSstrip hagree⟩
    obtain ⟨dbN, resN, heqN, hNproj, hNgoals, hNstrip, hNnext, hNcre, hNup, hNug, hNut⟩ :=
      ih dbS resS hmatch2
    refine ⟨dbN, resN, ?_, ?_, ?_, ?_, ?_, ?_, ?_, ?_, ?_⟩
    · rw [List.foldl_cons, hstep, if_neg hnotname, heqS, heqN]
    · rw [hNproj, hSproj]
    · rw [hNgoals, hSgoals]
    · rw [hNstrip, hSstrip]
    · rw [hNnext, hSnext]
    · rw [hNcre, hScre]
    · rw [hNup, hSup]
    · rw [hNug, hSug]
    · rw [hNut, hSut]
      simp only [List.flatMap_cons, List.length_append]
      omega

/-- An id-matched client project reduces to the conditional name update
followed by the goal fold against the project snapshot. -/
theorem processClientProject_step (now : Nat) (db : DB) (res : SyncResults)
    (cp : ClientProject) (pid : Nat) (sp : Project) (snapG : List GoalSnap)
    (hid : cp.id = some pid)
    (hsnap : db.projectSnapshot pid = some (sp, snapG)) :
    processClientProject now (db, res) cp =
      cp.goals.foldl (processClientGoal now pid snapG)
        (if sp.name ≠ cp.name then
          (db.updateProjectName now pid cp.name,
           { res with updated := { res.updated with projects := res.updated.projects + 1 } })
         else (db, res)) := by
  unfold processClientProject
  rw [hid]
  dsimp only
  rw [hsnap]

/-- A matched client goal is found in the project snapshot, with its
tasks found in the goal snapshot. -/
theorem snapshot_goal_match (db : DB) (pid : Nat) (cg : ClientGoal) (gid : Nat)
    (hg : ∃ g ∈ db.goals, g.id = gid ∧ g.projectId = pid ∧ g.deletedAt = none)
    (htasks : ∀ ct ∈ cg.tasks, MatchedTask db gid ct) :
    ∃ sn, ((db.goalsOfProject pid).map
        (fun g => (⟨g, db.tasksOfGoal g.id⟩ : GoalSnap))).find?
        (fun s => s.goal.id == gid) = some sn ∧
      sn.goal ∈ db.goals ∧ sn.goal.id = gid ∧ sn.tasks = db.tasksOfGoal gid ∧
      (∀ ct ∈ cg.tasks, ∃ tid, ct.id = some tid ∧
        (sn.tasks.find? (fun t => t.id == tid)).isSome) := by
  obtain ⟨g, hgmem, hgid, hgproj, hgdel⟩ := hg
  have hgfilter : g ∈ db.goalsOfProject pid :=
    List.mem_filter.mpr ⟨hgmem, by simp [hgproj, hgdel]⟩
  have hsome : (((db.goalsOfProject pid).map
      (fun g => (⟨g, db.tasksOfGoal g.id⟩ : GoalSnap))).find?
      (fun s => s.goal.id == gid)).isSome := by
    rw [List.find?_isSome]
    exact ⟨⟨g, db.tasksOfGoal g.id⟩, List.mem_map_of_mem _ hgfilter, by simpa using hgid⟩
  obtain ⟨sn, hsn⟩ := Option.isSome_iff_exists.mp hsome
  have hsnid : sn.goal.id = gid := by simpa using List.find?_some hsn
  obtain ⟨g0, hg0mem, hg0eq⟩ := List.mem_map.mp (List.mem_of_find?_eq_some hsn)
  have hsngoal : sn.goal = g0 := by rw [← hg0eq]
  have hsntasks : sn.tasks = db.tasksOfGoal gid := by
    rw [← hg0eq]
    dsimp only
    rw [show g0.id = gid from by rw [← hsngoal, hsnid]]
  refine ⟨sn, hsn, ?_, hsnid, hsntasks, ?_⟩
  · rw [hsngoal]
    exact List.mem_of_mem_filter hg0mem
  · intro ct hct
    obtain ⟨tid, htid, t, htmem, htprops⟩ := htasks ct hct
    refine ⟨tid, htid, ?_⟩
    rw [hsntasks, List.find?_isSome]
    refine ⟨t, List.mem_filter.mpr ⟨htmem, by simp [htprops.2.1, htprops.2.2]⟩, ?_⟩
    simp [htprops.1]

/-- Project-table skeleton equality preserves the id column. -/
theorem projIds_of_skel {l l2 : List Project}
    (h : l2.map Project.skel = l.map Project.skel) :
    l2.map Project.id = l.map Project.id := by
  have h2 := congrArg (List.map Prod.fst) h
  simpa only [List.map_map] using h2

/-- Skeleton-preserving store transitions preserve matchedness of a
client project. -/
theorem matched_transfer (db dbS : DB)
    (hp : dbS.projects.map Project.skel = db.projects.map Project.skel)
    (hg : dbS.goals.map Goal.skel = db.goals.map Goal.skel)
    (ht : dbS.tasks.map Task.skel = db.tasks.map Task.skel) :
    ∀ cp, MatchedProject db cp → MatchedProject dbS cp := by
  intro cp hmp
  obtain ⟨pid, hid, ⟨p, hpmem, hpid⟩, hgoals⟩ := hmp
  refine ⟨pid, hid, ?_, ?_⟩
  · obtain ⟨p2, hp2, hskel⟩ := exists_of_map_eq hp hpmem
    simp only [Project.skel, Prod.mk.injEq] at hskel
    exact ⟨p2, hp2, by rw [hskel.1, hpid]⟩
  · intro cg hcg
    obtain ⟨gid, hidg, ⟨g, hgmem, hgid, hgproj, hgdel⟩, htasks⟩ := hgoals cg hcg
    obtain ⟨g2, hg2, hskel⟩ := exists_of_map_eq hg hgmem
    simp only [Goal.skel, Prod.mk.injEq] at hskel
    refine ⟨gid, hidg, ⟨g2, hg2, by rw [hskel.1, hgid], by rw [hskel.2.1, hgproj],
      by rw [hskel.2.2.2, hgdel]⟩, ?_⟩
    intro ct hct
    obtain ⟨tid, htid, t, htmem, ht1, ht2, ht3⟩ := htasks ct hct
    obtain ⟨t2, ht2m, hskelT⟩ := exists_of_map_eq ht htmem
    simp only [Task.skel, Prod.mk.injEq] at hskelT
    exact ⟨tid, htid, t2, ht2m, by rw [hskelT.1, ht1], by rw [hskelT.2.1, ht2],
      by rw [hskelT.2.2.2, ht3]⟩

/-- First pass over a list of id-matched client projects: after the pass
the store agrees with the client snapshot on every matched entity, all
skeletons are preserved, nothing is created, and the task-updated counter
grows by the total number of client tasks. -/
theorem projectFold_firstPass (now : Nat) :
    ∀ (ps : List ClientProject) (db : DB) (res : SyncResults),
      (db.projects.map Project.id).Nodup →
      (db.goals.map Goal.id).Nodup →
      (ps.filterMap ClientProject.id).Nodup →
      (ps.flatMap (fun cp => cp.goals.filterMap ClientGoal.id)).Nodup →
      (ps.flatMap (fun cp => cp.goals.flatMap
        (fun cg => cg.tasks.filterMap ClientTask.id))).Nodup →
      (∀ cp ∈ ps, MatchedProject db cp) →
      ∃ dbN resN,
        ps.foldl (processClientProject now) (db, res) = (dbN, resN) ∧
          dbN.projects.map Project.skel = db.projects.map Project.skel ∧
          dbN.goals.map Goal.skel = db.goals.map Goal.skel ∧
          dbN.tasks.map Task.skel = db.tasks.map Task.skel ∧
          dbN.nextId = db.nextId ∧
          resN.created = res.created ∧
          resN.updated.tasks = res.updated.tasks +
            (ps.flatMap (fun cp => cp.goals.flatMap ClientGoal.tasks)).length ∧
          (∀ cp ∈ ps, AgreesProject dbN cp) ∧
          (∀ pid, pid ∉ ps.filterMap ClientProject.id →
            ∀ p ∈ dbN.projects, p.id = pid → p ∈ db.projects) ∧
          (∀ gid, gid ∉ ps.flatMap (fun cp => cp.goals.filterMap ClientGoal.id) →
            ∀ g ∈ dbN.goals, g.id = gid → g ∈ db.goals) ∧
          (∀ tid, tid ∉ ps.flatMap (fun cp => cp.goals.flatMap
              (fun cg => cg.tasks.filterMap ClientTask.id)) →
            ∀ t ∈ dbN.tasks, t.id = tid → t ∈ db.tasks) := by
  intro ps
  induction ps with
  | nil =>
    intro db res _ _ _ _ _ _
    exact ⟨db, res, rfl, rfl, rfl, rfl, rfl, rfl, by simp, by simp,
      by intro pid _ p hp _; exact hp, by intro gid _ g hg _; exact hg,
      by intro tid _ t ht _; exact ht⟩
  | cons cp ps ih =>
    intro db res hwfp hwfg hndp hndg hndt hm
    obtain ⟨pid, hid, ⟨p, hpmem, hpid⟩, hgoals⟩ := hm cp (List.mem_cons_self _ _)
    -- the snapshot of this project in the current store
    have hfindPsome : (db.findProjectAny pid).isSome := by
      rw [DB.findProjectAny, List.find?_isSome]
      exact ⟨p, hpmem, by simpa using hpid⟩
    obtain ⟨sp, hsp⟩ := Option.isSome_iff_exists.mp hfindPsome
    have hspmem : sp ∈ db.projects := List.mem_of_find?_eq_some hsp
    have hspid : sp.id = pid := by simpa using List.find?_some hsp
    have hsnap : db.projectSnapshot pid =
        some (sp, (db.goalsOfProject pid).map (fun g => ⟨g, db.tasksOfGoal g.id⟩)) := by
      unfold DB.projectSnapshot
      rw [hsp]
    have hstep := processClientProject_step now db res cp pid sp
      ((db.goalsOfProject pid).map (fun g => ⟨g, db.tasksOfGoal g.id⟩)) hid hsnap
    -- nodup bookkeeping at the request level
    have hndpc : (pid :: ps.filterMap ClientProject.id).Nodup := by
      rw [List.filterMap_cons, hid] at hndp
      exact hndp
    have hpid_not : pid ∉ ps.filterMap ClientProject.id := (List.nodup_cons.mp hndpc).1
    have hndp2 : (ps.filterMap ClientProject.id).Nodup := (List.nodup_cons.mp hndpc).2
    have hndg_split : (cp.goals.filterMap ClientGoal.id ++
        ps.flatMap (fun cp => cp.goals.filterMap ClientGoal.id)).Nodup := by
      rw [List.flatMap_cons] at hndg
      exact hndg
    have hndg_head := hndg_split.of_append_left
    have hndg_tail := hndg_split.of_append_right
    have hgdisj : ∀ gid ∈ cp.goals.filterMap ClientGoal.id,
        gid ∉ ps.flatMap (fun cp => cp.goals.filterMap ClientGoal.id) :=
      fun gid h1 h2 => List.disjoint_of_nodup_append hndg_split h1 h2
    have hndt_split : (cp.goals.flatMap (fun cg => cg.tasks.filterMap ClientTask.id) ++
        ps.flatMap (fun cp => cp.goals.flatMap
          (fun cg => cg.tasks.filterMap ClientTask.id))).Nodup := by
      rw [List.flatMap_cons] at hndt
      exact hndt
    have hndt_head := hndt_split.of_append_left
    have hndt_tail := hndt_split.of_append_right
    have htdisj : ∀ tid ∈ cp.goals.flatMap (fun cg => cg.tasks.filterMap ClientTask.id),
        tid ∉ ps.flatMap (fun cp => cp.goals.flatMap
          (fun cg => cg.tasks.filterMap ClientTask.id)) :=
      fun tid h1 h2 => List.disjoint_of_nodup_append hndt_split h1 h2
    -- hypotheses for the goal fold, in both name branches
    have hgf_hyp : ∀ cg ∈ cp.goals, ∃ gid, cg.id = some gid ∧
        ∃ sn, ((db.goalsOfProject pid).map
            (fun g => (⟨g, db.tasksOfGoal g.id⟩ : GoalSnap))).find?
            (fun s => s.goal.id == gid) = some sn ∧
          sn.goal ∈ db.goals ∧ sn.goal.id = gid ∧
          (∀ ct ∈ cg.tasks, ∃ tid, ct.id = some tid ∧
            (sn.tasks.find? (fun t => t.id == tid)).isSome) := by
      intro cg hcg
      obtain ⟨gid, hidg, hex, htasks⟩ := hgoals cg hcg
      obtain ⟨sn, hfind, hsnmem, hsnid, _, htfound⟩ :=
        snapshot_goal_match db pid cg gid hex htasks
      exact ⟨gid, hidg, sn, hfind, hsnmem, hsnid, htfound⟩
    by_cases hname : sp.name ≠ cp.name
    · obtain ⟨hpg1, hpt1, hpn1, hpskel1, hpset1, hpun1⟩ :=
        updateProjectName_facts db now pid cp.name
      have hgf_hyp1 : ∀ cg ∈ cp.goals, ∃ gid, cg.id = some gid ∧
          ∃ sn, ((db.goalsOfProject pid).map
              (fun g => (⟨g, db.tasksOfGoal g.id⟩ : GoalSnap))).find?
              (fun s => s.goal.id == gid) = some sn ∧
            sn.goal ∈ (db.updateProjectName now pid cp.name).goals ∧ sn.goal.id = gid ∧
            (∀ ct ∈ cg.tasks, ∃ tid, ct.id = some tid ∧
              (sn.tasks.find? (fun t => t.id == tid)).isSome) := by
        intro cg hcg
        obtain ⟨gid, hidg, sn, hfind, hsnmem, hsnid, htfound⟩ := hgf_hyp cg hcg
        exact ⟨gid, hidg, sn, hfind, by rw [hpg1]; exact hsnmem, hsnid, htfound⟩
      obtain ⟨dbS, resS, heqS, hSproj, hSgskel, hStskel, hSnext, hScre, hSup, hSut,
          hSagree, hSgun, hStun⟩ :=
        goalFold_firstPass now pid _ cp.goals (db.updateProjectName now pid cp.name)
          { res with updated := { res.updated with projects := res.updated.projects + 1 } }
          (by rw [hpg1]; exact hwfg) hndg_head hndt_head hgf_hyp1
      have hSpskel : dbS.projects.map Project.skel = db.projects.map Project.skel := by
        rw [hSproj, hpskel1]
      have hSgskel2 : dbS.goals.map Goal.skel = db.goals.map Goal.skel := by
        rw [hSgskel, hpg1]
      have hStskel2 : dbS.tasks.map Task.skel = db.tasks.map Task.skel := by
        rw [hStskel, hpt1]
      obtain ⟨dbN, resN, heqN, hNpskel, hNgskel, hNtskel, hNnext, hNcre, hNut,
          hNagree, hNpun, hNgun, hNtun⟩ :=
        ih dbS resS (by rw [projIds_of_skel hSpskel]; exact hwfp)
          (by rw [goalIds_of_skel hSgskel2]; exact hwfg) hndp2 hndg_tail hndt_tail
          (fun cp2 h2 => matched_transfer db dbS hSpskel hSgskel2 hStskel2 cp2
            (hm cp2 (List.mem_cons_of_mem _ h2)))
      refine ⟨dbN, resN, ?_, ?_, ?_, ?_, ?_, ?_, ?_, ?_, ?_, ?_, ?_⟩
      · rw [List.foldl_cons, hstep, if_pos hname, heqS, heqN]
      · rw [hNpskel, hSpskel]
      · rw [hNgskel, hSgskel2]
      · rw [hNtskel, hStskel2]
      · rw [hNnext, hSnext, hpn1]
      · rw [hNcre, hScre]
      · rw [hNut, hSut]
        simp only [List.flatMap_cons, List.length_append]
        omega
      · intro cp2 hcp2
        rcases List.mem_cons.mp hcp2 with h | h
        · subst h
          constructor
          · intro pid2 hpid2 q hq hqid
            have hpid2e : pid2 = pid := by
              rw [hid] at hpid2
              exact Option.some_inj.mp hpid2.symm
            subst hpid2e
            have hmemS : q ∈ dbS.projects := hNpun pid2 hpid_not q hq hqid
            rw [hSproj] at hmemS
            exact hpset1 q hmemS hqid
          · intro cg hcg
            constructor
            · intro gid2 hgid2 g hg hggid
              have hnot : gid2 ∉ ps.flatMap (fun cp => cp.goals.filterMap ClientGoal.id) :=
                hgdisj gid2 (List.mem_filterMap.mpr ⟨cg, hcg, hgid2⟩)
              have hmemS : g ∈ dbS.goals := hNgun gid2 hnot g hg hggid
              exact ((hSagree cg hcg gid2 hgid2).1) g hmemS hggid
            · intro ct hct tid htid t ht htidt
              have hnot : tid ∉ ps.flatMap (fun cp => cp.goals.flatMap
                  (fun cg => cg.tasks.filterMap ClientTask.id)) :=
                htdisj tid (List.mem_flatMap.mpr
                  ⟨cg, hcg, List.mem_filterMap.mpr ⟨ct, hct, htid⟩⟩)
              have hmemS : t ∈ dbS.tasks := hNtun tid hnot t ht htidt
              obtain ⟨gidc, hgidc, -⟩ := hgf_hyp cg hcg
              exact (hSagree cg hcg gidc hgidc).2 ct hct tid htid t hmemS htidt
        · exact hNagree cp2 h
      · intro pid2 hnotin q hq hqid
        have hnotin2 : pid2 ∉ ps.filterMap ClientProject.id := by
          intro hcon
          exact hnotin (by rw [List.filterMap_cons, hid]; exact List.mem_cons_of_mem _ hcon)
        have hne : pid2 ≠ pid := by
          intro hcon
          exact hnotin (by rw [List.filterMap_cons, hid, hcon]; exact List.mem_cons_self _ _)
        have hmemS : q ∈ dbS.projects := hNpun pid2 hnotin2 q hq hqid
        rw [hSproj] at hmemS
        exact hpun1 q hmemS (by rw [hqid]; exact hne)
      · intro gid2 hnotin g hg hggid
        have hnotin2 : gid2 ∉ ps.flatMap (fun cp => cp.goals.filterMap ClientGoal.id) := by
          intro hcon
          exact hnotin (by rw [List.flatMap_cons]; exact List.mem_append_right _ hcon)
        have hnotinh : gid2 ∉ cp.goals.filterMap ClientGoal.id := by
          intro hcon
          exact hnotin (by rw [List.flatMap_cons]; exact List.mem_append_left _ hcon)
        have hmemS : g ∈ dbS.goals := hNgun gid2 hnotin2 g hg hggid
        have := hSgun gid2 hnotinh g hmemS hggid
        rw [hpg1] at this
        exact this
      · intro tid hnotin t ht htidt
        have hnotin2 : tid ∉ ps.flatMap (fun cp => cp.goals.flatMap
            (fun cg => cg.tasks.filterMap ClientTask.id)) := by
          intro hcon
          exact hnotin (by rw [List.flatMap_cons]; exact List.mem_append_right _ hcon)
        have hnotinh : tid ∉ cp.goals.flatMap (fun cg => cg.tasks.filterMap ClientTask.id) := by
          intro hcon
          exact hnotin (by rw [List.flatMap_cons]; exact List.mem_append_left _ hcon)
        have hmemS : t ∈ dbS.tasks := hNtun tid hnotin2 t ht htidt
        have := hStun tid hnotinh t hmemS htidt
        rw [hpt1] at this
        exact this
    · -- project name already equal
      have hnameeq : sp.name = cp.name := not_not.mp hname
      obtain ⟨dbS, resS, heqS, hSproj, hSgskel, hStskel, hSnext, hScre, hSup, hSut,
          hSagree, hSgun, hStun⟩ :=
        goalFold_firstPass now pid _ cp.goals db res hwfg hndg_head hndt_head hgf_hyp
      have hSpskel : dbS.projects.map Project.skel = db.projects.map Project.skel := by
        rw [hSproj]
      obtain ⟨dbN, resN, heqN, hNpskel, hNgskel, hNtskel, hNnext, hNcre, hNut,
          hNagree, hNpun, hNgun, hNtun⟩ :=
        ih dbS resS (by rw [projIds_of_skel hSpskel]; exact hwfp)
          (by rw [goalIds_of_skel hSgskel]; exact hwfg) hndp2 hndg_tail hndt_tail
          (fun cp2 h2 => matched_transfer db dbS hSpskel hSgskel hStskel cp2
            (hm cp2 (List.mem_cons_of_mem _ h2)))
      refine ⟨dbN, resN, ?_, ?_, ?_, ?_, ?_, ?_, ?_, ?_, ?_, ?_, ?_⟩
      · rw [List.foldl_cons, hstep, if_neg hname, heqS, heqN]
      · rw [hNpskel, hSpskel]
      · rw [hNgskel, hSgskel]
      · rw [hNtskel, hStskel]
      · rw [hNnext, hSnext]
      · rw [hNcre, hScre]
      · rw [hNut, hSut]
        simp only [List.flatMap_cons, List.length_append]
        omega
      · intro cp2 hcp2
        rcases List.mem_cons.mp hcp2 with h | h
        · subst h
          constructor
          · intro pid2 hpid2 q hq hqid
            have hpid2e : pid2 = pid := by
              rw [hid] at hpid2
              exact Option.some_inj.mp hpid2.symm
            subst hpid2e
            have hmemS : q ∈ dbS.projects := hNpun pid2 hpid_not q hq hqid
            rw [hSproj] at hmemS
            have : q = sp :=
              List.inj_on_of_nodup_map hwfp hmemS hspmem (by rw [hqid, hspid])
            rw [this, hnameeq]
          · intro cg hcg
            constructor
            · intro gid2 hgid2 g hg hggid
              have hnot : gid2 ∉ ps.flatMap (fun cp => cp.goals.filterMap ClientGoal.id) :=
                hgdisj gid2 (List.mem_filterMap.mpr ⟨cg, hcg, hgid2⟩)
              have hmemS : g ∈ dbS.goals := hNgun gid2 hnot g hg hggid
              exact ((hSagree cg hcg gid2 hgid2).1) g hmemS hggid
            · intro ct hct tid htid t ht htidt
              have hnot : tid ∉ ps.flatMap (fun cp => cp.goals.flatMap
                  (fun cg => cg.tasks.filterMap ClientTask.id)) :=
                htdisj tid (List.mem_flatMap.mpr
                  ⟨cg, hcg, List.mem_filterMap.mpr ⟨ct, hct, htid⟩⟩)
              have hmemS : t ∈ dbS.tasks := hNtun tid hnot t ht htidt
              obtain ⟨gidc, hgidc, -⟩ := hgf_hyp cg hcg
              exact (hSagree cg hcg gidc hgidc).2 ct hct tid htid t hmemS htidt
        · exact hNagree cp2 h
      · intro pid2 hnotin q hq hqid
        have hnotin2 : pid2 ∉ ps.filterMap ClientProject.id := by
          intro hcon
          exact hnotin (by rw [List.filterMap_cons, hid]; exact List.mem_cons_of_mem _ hcon)
        have hmemS : q ∈ dbS.projects := hNpun pid2 hnotin2 q hq hqid
        rw [hSproj] at hmemS
        exact hmemS
      · intro gid2 hnotin g hg hggid
        have hnotin2 : gid2 ∉ ps.flatMap (fun cp => cp.goals.filterMap ClientGoal.id) := by
          intro hcon
          exact hnotin (by rw [List.flatMap_cons]; exact List.mem_append_right _ hcon)
        have hnotinh : gid2 ∉ cp.goals.filterMap ClientGoal.id := by
          intro hcon
          exact hnotin (by rw [List.flatMap_cons]; exact List.mem_append_left _ hcon)
        have hmemS : g ∈ dbS.goals := hNgun gid2 hnotin2 g hg hggid
        exact hSgun gid2 hnotinh g hmemS hggid
      · intro tid hnotin t ht htidt
        have hnotin2 : tid ∉ ps.flatMap (fun cp => cp.goals.flatMap
            (fun cg => cg.tasks.filterMap ClientTask.id)) := by
          intro hcon
          exact hnotin (by rw [List.flatMap_cons]; exact List.mem_append_right _ hcon)
        have hnotinh : tid ∉ cp.goals.flatMap (fun cg => cg.tasks.filterMap ClientTask.id) := by
          intro hcon
          exact hnotin (by rw [List.flatMap_cons]; exact List.mem_append_left _ hcon)
        have hmemS : t ∈ dbS.tasks := hNtun tid hnotin2 t ht htidt
        exact hStun tid hnotinh t hmemS htidt

/-- updatedAt-erasure equality of task tables implies skeleton equality. -/
theorem taskSkel_of_strip {l l2 : List Task}
    (h : l2.map Task.stripUpdated = l.map Task.stripUpdated) :
    l2.map Task.skel = l.map Task.skel := by
  have h2 := congrArg (List.map Task.skel) h
  simpa only [List.map_map] using h2

/-- A transition that keeps projects and goals and changes tasks only up
to updatedAt preserves matchedness and agreement of a client project. -/
theorem matchedAgrees_transfer_strip (db dbS : DB)
    (hp : dbS.projects = db.projects) (hg : dbS.goals = db.goals)
    (ht : dbS.tasks.map Task.stripUpdated = db.tasks.map Task.stripUpdated) :
    ∀ cp, MatchedProject db cp → AgreesProject db cp →
      MatchedProject dbS cp ∧ AgreesProject dbS cp := by
  intro cp hmp hap
  constructor
  · exact matched_transfer db dbS (by rw [hp]) (by rw [hg]) (taskSkel_of_strip ht) cp hmp
  · constructor
    · intro pid hpid q hq hqid
      exact hap.1 pid hpid q (by rw [← hp]; exact hq) hqid
    · intro cg hcg
      constructor
      · intro gid hgid g hgm hggid
        exact (hap.2 cg hcg).1 gid hgid g (by rw [← hg]; exact hgm) hggid
      · intro ct hct tid htid t htm htidt
        exact agree_of_strip_eq ht ((hap.2 cg hcg).2 ct hct tid htid) t htm htidt

/-- Stable pass over id-matched client projects whose content the store
already carries: projects and goals are untouched, tasks change only in
updatedAt, nothing is created, no project or goal update is counted, and
the task-updated counter grows by the total number of client tasks. -/
theorem projectFold_stable (now : Nat) :
    ∀ (ps : List ClientProject) (db : DB) (res : SyncResults),
      (∀ cp ∈ ps, MatchedProject db cp ∧ AgreesProject db cp) →
      ∃ dbN resN,
        ps.foldl (processClientProject now) (db, res) = (dbN, resN) ∧
          dbN.projects = db.projects ∧
          dbN.goals = db.goals ∧
          dbN.tasks.map Task.stripUpdated = db.tasks.map Task.stripUpdated ∧
          dbN.nextId = db.nextId ∧
          resN.created = res.created ∧
          resN.updated.projects = res.updated.projects ∧
          resN.updated.goals = res.updated.goals ∧
          resN.updated.tasks = res.updated.tasks +
            (ps.flatMap (fun cp => cp.goals.flatMap ClientGoal.tasks)).length := by
  intro ps
  induction ps with
  | nil =>
    intro db res _
    exact ⟨db, res, rfl, rfl, rfl, rfl, rfl, rfl, rfl, rfl, by simp⟩
  | cons cp ps ih =>
    intro db res hm
    obtain ⟨hmp, hap⟩ := hm cp (List.mem_cons_self _ _)
    obtain ⟨pid, hid, ⟨p, hpmem, hpid⟩, hgoals⟩ := hmp
    have hfindPsome : (db.findProjectAny pid).isSome := by
      rw [DB.findProjectAny, List.find?_isSome]
      exact ⟨p, hpmem, by simpa using hpid⟩
    obtain ⟨sp, hsp⟩ := Option.isSome_iff_exists.mp hfindPsome
    have hspmem : sp ∈ db.projects := List.mem_of_find?_eq_some hsp
    have hspid : sp.id = pid := by simpa using List.find?_some hsp
    have hsnap : db.projectSnapshot pid =
        some (sp, (db.goalsOfProject pid).map (fun g => ⟨g, db.tasksOfGoal g.id⟩)) := by
      unfold DB.projectSnapshot
      rw [hsp]
    have hstep := processClientProject_step now db res cp pid sp
      ((db.goalsOfProject pid).map (fun g => ⟨g, db.tasksOfGoal g.id⟩)) hid hsnap
    have hspname : sp.name = cp.name := hap.1 pid hid sp hspmem hspid
    have hnotname : ¬ sp.name ≠ cp.name := not_not.mpr hspname
    have hgf_hyp : ∀ cg ∈ cp.goals, ∃ gid, cg.id = some gid ∧
        ∃ sn, ((db.goalsOfProject pid).map
            (fun g => (⟨g, db.tasksOfGoal g.id⟩ : GoalSnap))).find?
            (fun s => s.goal.id == gid) = some sn ∧
          sn.goal.name = cg.name ∧
          (∀ ct ∈ cg.tasks, ∃ tid, ct.id = some tid ∧
            (sn.tasks.find? (fun t => t.id == tid)).isSome ∧
            (∀ t ∈ db.tasks, t.id = tid → t.syncContent = ct.syncContent)) := by
      intro cg hcg
      obtain ⟨gid, hidg, hex, htasks⟩ := hgoals cg hcg
      obtain ⟨sn, hfind, hsnmem, hsnid, _, htfound⟩ :=
        snapshot_goal_match db pid cg gid hex htasks
      refine ⟨gid, hidg, sn, hfind, (hap.2 cg hcg).1 gid hidg sn.goal hsnmem hsnid, ?_⟩
      intro ct hct
      obtain ⟨tid, htid, hfoundt⟩ := htfound ct hct
      exact ⟨tid, htid, hfoundt, (hap.2 cg hcg).2 ct hct tid htid⟩
    obtain ⟨dbS, resS, heqS, hSproj, hSgoals, hSstrip, hSnext, hScre, hSup, hSug, hSut⟩ :=
      goalFold_stable now pid _ cp.goals db res hgf_hyp
    obtain ⟨dbN, resN, heqN, hNproj, hNgoals, hNstrip, hNnext, hNcre, hNup, hNug, hNut⟩ :=
      ih dbS resS (fun cp2 h2 =>
        matchedAgrees_transfer_strip db dbS hSproj hSgoals hSstrip cp2
          (hm cp2 (List.mem_cons_of_mem _ h2)).1 (hm cp2 (List.mem_cons_of_mem _ h2)).2)
    refine ⟨dbN, resN, ?_, ?_, ?_, ?_, ?_, ?_, ?_, ?_, ?_⟩
    · rw [List.foldl_cons, hstep, if_neg hnotname, heqS, heqN]
    · rw [hNproj, hSproj]
    · rw [hNgoals, hSgoals]
    · rw [hNstrip, hSstrip]
    · rw [hNnext, hSnext]
    · rw [hNcre, hScre]
    · rw [hNup, hSup]
    · rw [hNug, hSug]
    · rw [hNut, hSut]
      simp only [List.flatMap_cons, List.length_append]
      omega

/-- Filtering commutes with an image-respecting predicate along equal
images. -/
theorem filter_map_congr {α β : Type} (f : α → β) (pr : α → Bool)
    (hpr : ∀ a b, f a = f b → pr a = pr b) :
    ∀ (l l2 : List α), l2.map f = l.map f →
      (l2.filter pr).map f = (l.filter pr).map f := by
  intro l
  induction l with
  | nil =>
    intro l2 h
    cases l2 with
    | nil => rfl
    | cons a t => simp at h
  | cons a l ihl =>
    intro l2 h
    cases l2 with
    | nil => simp at h
    | cons b t =>
      simp only [List.map_cons, List.cons.injEq] at h
      obtain ⟨hfb, ht⟩ := h
      have hprb : pr b = pr a := hpr b a hfb
      rw [List.filter_cons, List.filter_cons, hprb]
      cases hpa : pr a with
      | false =>
        simp only [Bool.false_eq_true, if_neg]
        exact ihl t ht
      | true =>
        simp only [if_pos]
        simp only [List.map_cons]
        rw [hfb, ihl t ht]

/-- Sorting tasks commutes with erasing updatedAt (the comparator never
reads it). -/
theorem insertionSort_strip_congr {l l2 : List Task}
    (h : l2.map Task.stripUpdated = l.map Task.stripUpdated) :
    (List.insertionSort taskListLe l2).map Task.stripUpdated =
      (List.insertionSort taskListLe l).map Task.stripUpdated := by
  have hiff : ∀ (m : List Task), ∀ a ∈ m, ∀ b ∈ m,
      taskListLe a b ↔ taskListLe (Task.stripUpdated a) (Task.stripUpdated b) :=
    fun m a _ b _ => Iff.rfl
  rw [List.map_insertionSort taskListLe taskListLe Task.stripUpdated l2 (hiff l2),
    List.map_insertionSort taskListLe taskListLe Task.stripUpdated l (hiff l), h]

/-- The returned hierarchy snapshots of two stores that differ only in
task updatedAt values are equal after erasing updatedAt. -/
theorem serverState_strip_congr (dbA dbB : DB)
    (hp : dbB.projects = dbA.projects) (hg : dbB.goals = dbA.goals)
    (ht : dbB.tasks.map Task.stripUpdated = dbA.tasks.map Task.stripUpdated) :
    stripServerState dbB.serverState = stripServerState dbA.serverState := by
  have inner : ∀ gid : Nat,
      (List.insertionSort taskListLe (dbB.tasksOfGoal gid)).map Task.stripUpdated =
        (List.insertionSort taskListLe (dbA.tasksOfGoal gid)).map Task.stripUpdated := by
    intro gid
    apply insertionSort_strip_congr
    unfold DB.tasksOfGoal
    apply filter_map_congr Task.stripUpdated _ _ dbA.tasks dbB.tasks ht
    intro a b hab
    have hid : a.goalId = b.goalId := congrArg (fun t => t.goalId) hab
    have hdel : a.deletedAt = b.deletedAt := congrArg (fun t => t.deletedAt) hab
    rw [hid, hdel]
  unfold DB.serverState stripServerState DB.goalsOfProject
  rw [hp, hg]
  simp only [List.map_map]
  apply List.map_congr_left
  intro p _
  simp only [Function.comp_apply, Prod.mk.injEq, true_and]
  simp only [List.map_map]
  apply List.map_congr_left
  intro g _
  simp only [Function.comp_apply, Prod.mk.injEq, true_and]
  exact inner g.id

/-- Unfolding of `syncData` into the reconciliation fold. -/
theorem syncData_eq (now : Nat) (db : DB) (req : SyncReq) :
    syncData now db req =
      ((req.projects.foldl (processClientProject now) (db, SyncResults.init)).1,
       (req.projects.foldl (processClientProject now) (db, SyncResults.init)).2,
       (req.projects.foldl (processClientProject now) (db, SyncResults.init)).1.serverState) :=
  rfl

/-- C3 counterexample: over `exampleDB` the snapshot `exampleMatchedReq`
matches every entity by id with content identical to the server values,
yet the second reconciliation still reports one task update (the
last-write-wins task update is unconditional), and the serverState
returned by the second call differs from the first (the re-applied update
bumps the task's updatedAt). -/
theorem syncSecondPassCounts_cex :
    exampleDB.tasks.map Task.syncContent =
        [("T", false, Urgency.MIDDEN, false, none)] ∧
      (syncData 2 (syncData 1 exampleDB exampleMatchedReq).1 exampleMatchedReq).2.1.updated =
        ⟨0, 0, 1⟩ ∧
      (syncData 2 (syncData 1 exampleDB exampleMatchedReq).1 exampleMatchedReq).2.2 ≠
        (syncData 1 exampleDB exampleMatchedReq).2.2 := by
  refine ⟨by decide, by decide, by decide⟩

/-- C3 (amended): for a snapshot whose projects, goals and tasks all
carry ids matching (non-deleted, for goals and tasks) server entities,
with pairwise-distinct client ids and a well-keyed store, submitting the
snapshot twice yields: a second serverState identical to the first up to
task `updatedAt` timestamps; zero created counts and zero updated
project/goal counts on the second call; and a second updated task count
equal to the first call's (the unconditional last-write-wins task update
is re-applied, so it is counted again rather than being zero). -/
theorem syncIdempotentOnMatched (n1 n2 : Nat) (db : DB) (req : SyncReq)
    (hwfp : (db.projects.map Project.id).Nodup)
    (hwfg : (db.goals.map Goal.id).Nodup)
    (hndp : req.projectIds.Nodup)
    (hndg : req.goalIds.Nodup)
    (hndt : req.taskIds.Nodup)
    (hm : ∀ cp ∈ req.projects, MatchedProject db cp) :
    stripServerState (syncData n2 (syncData n1 db req).1 req).2.2 =
        stripServerState (syncData n1 db req).2.2 ∧
      (syncData n2 (syncData n1 db req).1 req).2.1.created = ⟨0, 0, 0⟩ ∧
      (syncData n2 (syncData n1 db req).1 req).2.1.updated.projects = 0 ∧
      (syncData n2 (syncData n1 db req).1 req).2.1.updated.goals = 0 ∧
      (syncData n2 (syncData n1 db req).1 req).2.1.updated.tasks =
        (syncData n1 db req).2.1.updated.tasks := by
  obtain ⟨db1, res1, heq1, h1pskel, h1gskel, h1tskel, h1next, h1cre, h1ut, h1agree,
      h1pun, h1gun, h1tun⟩ :=
    projectFold_firstPass n1 req.projects db SyncResults.init hwfp hwfg hndp hndg hndt hm
  have hm1 : ∀ cp ∈ req.projects, MatchedProject db1 cp ∧ AgreesProject db1 cp :=
    fun cp h => ⟨matched_transfer db db1 h1pskel h1gskel h1tskel cp (hm cp h), h1agree cp h⟩
  obtain ⟨db2, res2, heq2, h2proj, h2goals, h2strip, h2next, h2cre, h2up, h2ug, h2ut⟩ :=
    projectFold_stable n2 req.projects db1 SyncResults.init hm1
  have hout1 : syncData n1 db req = (db1, res1, db1.serverState) := by
    rw [syncData_eq, heq1]
  have hout2 : syncData n2 db1 req = (db2, res2, db2.serverState) := by
    rw [syncData_eq, heq2]
  have hfst : (syncData n1 db req).1 = db1 := by rw [hout1]
  rw [hfst, hout1, hout2]
  refine ⟨?_, ?_, ?_, ?_, ?_⟩
  · exact serverState_strip_congr db1 db2 h2proj h2goals h2strip
  · rw [h2cre]
    rfl
  · rw [h2up]
    rfl
  · rw [h2ug]
    rfl
  · rw [h2ut, h1ut]

/-- Witness for `syncIdempotentOnMatched` at the concrete matched
snapshot over `exampleDB`. -/
theorem syncIdempotentOnMatched_witness :
    (syncData 2 (syncData 1 exampleDB exampleMatchedReq).1 exampleMatchedReq).2.1.updated.tasks =
      (syncData 1 exampleDB exampleMatchedReq).2.1.updated.tasks := by
  have hm : ∀ cp ∈ exampleMatchedReq.projects, MatchedProject exampleDB cp := by
    intro cp hcp
    cases hcp with
    | tail _ h => cases h
    | head =>
      refine ⟨1, rfl, ⟨⟨1, "P", 0, 0, none⟩, by decide, rfl⟩, ?_⟩
      intro cg hcg
      cases hcg with
      | tail _ h => cases h
      | head =>
        refine ⟨2, rfl, ⟨⟨2, 1, "G", 0, 0, none⟩, by decide, rfl, rfl, rfl⟩, ?_⟩
        intro ct hct
        cases hct with
        | tail _ h => cases h
        | head =>
          exact ⟨3, rfl, ⟨3, 2, "T", false, .MIDDEN, false, 0, 0, none, none⟩,
            by decide, rfl, rfl, rfl⟩
  exact (syncIdempotentOnMatched 1 2 exampleDB exampleMatchedReq (by decide) (by decide)
    (by decide) (by decide) (by decide) hm).2.2.2.2

end FocusFlow
